import Mathlib

set_option maxRecDepth 2000

/-!
# Verification of the supertrade-beta trading engine

A shallow embedding of the core of the repository: the trading simulator
(`trading_simulator.py`: portfolio ledger, FIFO position matching, trade
execution), the strategy parameter table (`trading_strategy.py`) and the
technical-indicator pipeline (`technical_indicators.py`), together with
theorems settling the specification's claims about them.

Modelling conventions:
* Python `Decimal` values are modelled as exact rationals (`ℚ`).  The source
  performs all trade arithmetic in `Decimal`; the only rounding step it takes
  explicitly — `quantize(Decimal('0.00000001'), rounding=ROUND_DOWN)` in
  `_calculate_quantity` — is modelled explicitly by `quantize8`.  The
  28-significant-digit context of `Decimal` division and the
  `float(...)`/`Decimal(str(...))` round-trips the source performs when
  storing and re-reading trade fields are modelled as exact (they are exact
  on all values appearing in the claims).
* Wall-clock fields (`timestamp`, `start_time`, `duration`) and the
  `uuid`/database plumbing are not modelled: no claim mentions them.  Trade
  ids are indices into the append-only trade list, which is exactly the
  `trade_history` list of the source; `open_positions` holds indices into it,
  mirroring the source where the open-position lists alias the history dicts.
* The market-data collector is modelled as a price oracle
  `String → Option ℚ`; `none` models `_get_market_data` raising (the error
  path of `execute_buy`/`execute_sell`) or a price that cannot be resolved
  (the skip-and-log path of `get_balance`).
-/

/-- `Decimal.quantize(..., rounding=ROUND_DOWN)` rounds toward zero.
`truncTowardZero q` is the integer part of `q` rounded toward zero. -/
def truncTowardZero (q : ℚ) : ℤ :=
  if 0 ≤ q then ((q.num.natAbs / q.den : ℕ) : ℤ) else -((q.num.natAbs / q.den : ℕ) : ℤ)

/-- `q.quantize(Decimal('0.00000001'), rounding=ROUND_DOWN)`: truncate toward
zero to 8 decimal places. -/
def quantize8 (q : ℚ) : ℚ :=
  (truncTowardZero (q * 100000000) : ℚ) / 100000000

/-- `TradingSimulator._calculate_quantity`: raw quantity `amount / price`,
rounded down to 8 decimal places. -/
def calculateQuantity (amount price : ℚ) : ℚ :=
  quantize8 (amount / price)

/-- `self.fee_rate = Decimal('0.001')` (Binance default, hardcoded). -/
def feeRate : ℚ := 1 / 1000

/-- One entry of `self.portfolio`: `{'amount': ..., 'available': ...}`. -/
structure Balance where
  amount : ℚ
  available : ℚ
deriving DecidableEq

instance : Inhabited Balance := ⟨⟨0, 0⟩⟩

/-- Trade side. -/
inductive Side
  | buy
  | sell
deriving DecidableEq

/-- A trade dict as built by `execute_buy` / `execute_sell` (the fields the
core reads back; `id` is the index in the trade list, `user_id`, timestamps
and currency strings recoverable from `symbol` are omitted).  `profitLoss`,
`profitLossPct` and `matchedPosition` model the keys that are only set on a
sell that matched open positions (`dict.get` returns `None`/default when the
key is absent, hence `Option`). -/
structure Trade where
  symbol : String
  side : Side
  price : ℚ
  quantity : ℚ
  amount : ℚ
  fee : ℚ
  isOpen : Bool
  profitLoss : Option ℚ
  profitLossPct : Option ℚ
  matchedPosition : Option ℕ
deriving DecidableEq

instance : Inhabited Trade :=
  ⟨{ symbol := "", side := .buy, price := 0, quantity := 0, amount := 0, fee := 0,
     isOpen := false, profitLoss := none, profitLossPct := none, matchedPosition := none }⟩

/-- Indexing into the trade store, as the source indexes shared dicts:
missing indices yield the default (never happens in real runs). -/
def tradeAt (ts : List Trade) (i : ℕ) : Trade :=
  ts.getD i default

/-- `self.performance` (the numeric fields; `start_time`/`duration` are
wall-clock and not modelled).  `peakBalance` models the `peak_balance` key
that `_update_performance_metrics` reads with `.get(..., Decimal('0'))`
before first setting it; initialising it to `0` is observationally equal. -/
structure Perf where
  startingBalance : ℚ
  currentBalance : ℚ
  totalProfitLoss : ℚ
  totalProfitLossPct : ℚ
  roi : ℚ
  winCount : ℕ
  lossCount : ℕ
  totalTrades : ℕ
  winRate : ℚ
  largestWin : ℚ
  largestLoss : ℚ
  averageProfit : ℚ
  averageLoss : ℚ
  drawdown : ℚ
  maxDrawdown : ℚ
  sharpeRatio : ℚ
  peakBalance : ℚ
deriving DecidableEq

/-- Simulator construction parameters (`starting_capital`, `quote_currency`).
`risk_level` only feeds the strategy and is modelled there. -/
structure SimConfig where
  startingCapital : ℚ
  quoteCurrency : String
deriving DecidableEq

/-- The mutable state of a `TradingSimulator`: the portfolio dict (an
insertion-ordered association list, as Python dicts are), the trade store
(= `self.trade_history`, append-only), `self.open_positions` (symbol →
indices of the aliased open buy dicts) and `self.performance`. -/
structure SimState where
  portfolio : List (String × Balance)
  trades : List Trade
  openPositions : List (String × List ℕ)
  perf : Perf
deriving DecidableEq

/-- `self.portfolio.get(c, {}).get(field, Decimal('0'))`: look a currency up,
defaulting to zero balances. -/
def balOf (pf : List (String × Balance)) (c : String) : Balance :=
  match pf with
  | [] => ⟨0, 0⟩
  | (c', b) :: rest => if c = c' then b else balOf rest c

/-- `c in self.portfolio`. -/
def hasCur (pf : List (String × Balance)) (c : String) : Bool :=
  match pf with
  | [] => false
  | (c', _) :: rest => if c = c' then true else hasCur rest c

/-- `TradingSimulator._update_portfolio_balance`: ensure the currency exists
(with zero balances), then add `a` to both its `amount` and `available`. -/
def updatePortfolioBalance (c : String) (a : ℚ) (pf : List (String × Balance)) :
    List (String × Balance) :=
  match pf with
  | [] => [(c, ⟨a, a⟩)]
  | (c', b) :: rest =>
    if c = c' then (c', ⟨b.amount + a, b.available + a⟩) :: rest
    else (c', b) :: updatePortfolioBalance c a rest

/-- `self.open_positions.get(symbol, [])`. -/
def posOf (ops : List (String × List ℕ)) (s : String) : List ℕ :=
  match ops with
  | [] => []
  | (s', l) :: rest => if s = s' then l else posOf rest s

/-- `if symbol not in self.open_positions: self.open_positions[symbol] = []`
followed by `self.open_positions[symbol].append(tid)`. -/
def appendPos (s : String) (tid : ℕ) (ops : List (String × List ℕ)) :
    List (String × List ℕ) :=
  match ops with
  | [] => [(s, [tid])]
  | (s', l) :: rest =>
    if s = s' then (s', l ++ [tid]) :: rest else (s', l) :: appendPos s tid rest

/-- `self.open_positions[symbol] = l` (the key exists whenever the source
executes this assignment; on a missing key the model appends). -/
def setPos (s : String) (l : List ℕ) (ops : List (String × List ℕ)) :
    List (String × List ℕ) :=
  match ops with
  | [] => [(s, l)]
  | (s', l') :: rest =>
    if s = s' then (s', l) :: rest else (s', l') :: setPos s l rest

/-- `base_currency = symbol[:-len(self.quote_currency)]`: drop the trailing
quote-currency characters (the source always runs with a nonempty quote
currency such as `'USDT'`). -/
def baseCurrency (cfg : SimConfig) (symbol : String) : String :=
  String.mk (symbol.toList.take (symbol.toList.length - cfg.quoteCurrency.toList.length))

/-- Initial simulator state set up by `TradingSimulator.__init__` /
`_reset_simulation`. -/
def initState (cfg : SimConfig) : SimState :=
  { portfolio := [(cfg.quoteCurrency, ⟨cfg.startingCapital, cfg.startingCapital⟩)]
    trades := []
    openPositions := []
    perf :=
      { startingBalance := cfg.startingCapital, currentBalance := cfg.startingCapital,
        totalProfitLoss := 0, totalProfitLossPct := 0, roi := 0, winCount := 0,
        lossCount := 0, totalTrades := 0, winRate := 0, largestWin := 0,
        largestLoss := 0, averageProfit := 0, averageLoss := 0, drawdown := 0,
        maxDrawdown := 0, sharpeRatio := 0, peakBalance := 0 } }

/-- `TradingSimulator.get_balance`, reduced to the `total_balance_usd` field
the performance update consumes: quote-currency `amount` counts directly,
every other currency converts through the price oracle, and a currency whose
price cannot be resolved is skipped (logged, not failed) in the source. -/
def getBalanceTotal (cfg : SimConfig) (oracle : String → Option ℚ)
    (pf : List (String × Balance)) : ℚ :=
  pf.foldl
    (fun acc cb =>
      if cb.1 = cfg.quoteCurrency then acc + cb.2.amount
      else
        match oracle (cb.1 ++ cfg.quoteCurrency) with
        | some p => acc + cb.2.amount * p
        | none => acc)
    0

/-- `TradingSimulator._update_performance_metrics`.  Wall-clock duration is
not modelled; `ℚ` division by zero yields `0` where `Decimal` would raise
(`peak_balance = 0` never occurs in runs the claims range over). -/
def updatePerformanceMetrics (cfg : SimConfig) (oracle : String → Option ℚ)
    (σ : SimState) : SimState :=
  let total := getBalanceTotal cfg oracle σ.portfolio
  let p0 := σ.perf
  let p1 := { p0 with currentBalance := total, totalProfitLoss := total - cfg.startingCapital }
  let p2 :=
    if 0 < cfg.startingCapital then
      { p1 with
        totalProfitLossPct := p1.totalProfitLoss / cfg.startingCapital * 100,
        roi := p1.totalProfitLoss / cfg.startingCapital * 100 }
    else p1
  let p3 := { p2 with totalTrades := σ.trades.length }
  let tw := p3.winCount + p3.lossCount
  let p4 := if 0 < tw then { p3 with winRate := (p3.winCount : ℚ) / (tw : ℚ) * 100 } else p3
  let pls := σ.trades.filterMap Trade.profitLoss
  let profits := pls.filter (fun x => 0 < x)
  let losses := pls.filter (fun x => x < 0)
  let p5 :=
    if profits ≠ [] then { p4 with averageProfit := profits.sum / (profits.length : ℚ) } else p4
  let p6 :=
    if losses ≠ [] then { p5 with averageLoss := losses.sum / (losses.length : ℚ) } else p5
  let peak := max total p6.peakBalance
  let dd := (peak - total) / peak * 100
  let p7 := { p6 with peakBalance := peak, drawdown := dd }
  let p8 := if p7.maxDrawdown < dd then { p7 with maxDrawdown := dd } else p7
  { σ with perf := p8 }

/-- The error messages the simulator returns. -/
inductive SimError
  | insufficientQuoteBalance
  | priceLookupFailed
  | noBaseToSell
  | insufficientBaseBalance
deriving DecidableEq

/-- Structured result of `execute_buy`/`execute_sell`: either
`{'status': 'success', 'trade': ...}` (carrying the trade's index) or
`{'status': 'error', 'message': ...}`. -/
inductive TradeResult
  | success (tid : ℕ)
  | error (e : SimError)
deriving DecidableEq

def TradeResult.isError : TradeResult → Bool
  | .success _ => false
  | .error _ => true

/-- `price if price is not None else market_data['close'].iloc[-1]`, where a
raising collector is `none`. -/
def resolvePrice (oracle : String → Option ℚ) (symbol : String) :
    Option ℚ → Option ℚ
  | some p => some p
  | none => oracle symbol

/-- `TradingSimulator.execute_buy`. -/
def executeBuy (cfg : SimConfig) (oracle : String → Option ℚ) (symbol : String)
    (amount : ℚ) (price? : Option ℚ) (σ : SimState) : TradeResult × SimState :=
  let base := baseCurrency cfg symbol
  if amount > (balOf σ.portfolio cfg.quoteCurrency).available then
    (.error .insufficientQuoteBalance, σ)
  else
    match resolvePrice oracle symbol price? with
    | none => (.error .priceLookupFailed, σ)
    | some price =>
      let quantity := calculateQuantity amount price
      let fee := amount * feeRate
      let pf1 := updatePortfolioBalance cfg.quoteCurrency (-amount) σ.portfolio
      let pf2 := updatePortfolioBalance base quantity pf1
      let trade : Trade :=
        { symbol := symbol, side := .buy, price := price, quantity := quantity,
          amount := amount, fee := fee, isOpen := true, profitLoss := none,
          profitLossPct := none, matchedPosition := none }
      let tid := σ.trades.length
      let σ' : SimState :=
        { σ with
          portfolio := pf2
          trades := σ.trades ++ [trade]
          openPositions := appendPos symbol tid σ.openPositions }
      (.success tid, updatePerformanceMetrics cfg oracle σ')

/-- One record of the FIFO matching loop inside `execute_sell`: the matched
position's index, the matched quantity, and the realized profit/loss
(absolute and percentage) of that match. -/
structure MatchRec where
  pid : ℕ
  matched : ℚ
  pl : ℚ
  plPct : ℚ
deriving DecidableEq

/-- The per-match mutation of the sell trade dict inside the FIFO loop:
`trade['matched_position'] = pos['id']; trade['profit_loss'] = ...;
trade['profit_loss_pct'] = ...` (each iteration overwrites these keys). -/
def sellWrite (sellId pid : ℕ) (pl plPct : ℚ) (ts : List Trade) : List Trade :=
  ts.set sellId
    { tradeAt ts sellId with profitLoss := some pl, profitLossPct := some plPct,
                             matchedPosition := some pid }

/-- The per-match performance update inside the FIFO loop: a strictly
positive P/L counts as a win (tracking the largest win), anything else as a
loss (tracking the largest loss), and the realized P/L accumulates into
`total_profit_loss`. -/
def matchPerf (pf : Perf) (pl : ℚ) : Perf :=
  if 0 < pl then
    { pf with winCount := pf.winCount + 1, largestWin := max pf.largestWin pl,
              totalProfitLoss := pf.totalProfitLoss + pl }
  else
    { pf with lossCount := pf.lossCount + 1, largestLoss := min pf.largestLoss pl,
              totalProfitLoss := pf.totalProfitLoss + pl }

/-- The FIFO matching loop of `execute_sell` (`for pos in
self.open_positions[symbol]`), threading the shared trade store (both the
matched buy dicts and the sell trade dict at `sellId` are mutated through it)
and the performance counters.  A lot whose quantity fits in the remaining
sell quantity is consumed whole and closed; otherwise its quantity is
reduced and the remaining quantity drops to zero, ending the loop. -/
def matchLoop (price : ℚ) (sellId : ℕ) :
    List ℕ → List Trade → ℚ → Perf → List Trade × Perf
  | [], ts, _, pf => (ts, pf)
  | pid :: rest, ts, remaining, pf =>
    if remaining ≤ 0 then (ts, pf)
    else if (tradeAt ts pid).quantity ≤ remaining then
      matchLoop price sellId rest
        (sellWrite sellId pid ((price - (tradeAt ts pid).price) * (tradeAt ts pid).quantity)
          ((price - (tradeAt ts pid).price) / (tradeAt ts pid).price * 100)
          (ts.set pid { tradeAt ts pid with isOpen := false }))
        (remaining - (tradeAt ts pid).quantity)
        (matchPerf pf ((price - (tradeAt ts pid).price) * (tradeAt ts pid).quantity))
    else
      matchLoop price sellId rest
        (sellWrite sellId pid ((price - (tradeAt ts pid).price) * remaining)
          ((price - (tradeAt ts pid).price) / (tradeAt ts pid).price * 100)
          (ts.set pid { tradeAt ts pid with quantity := (tradeAt ts pid).quantity - remaining }))
        0
        (matchPerf pf ((price - (tradeAt ts pid).price) * remaining))

/-- The tail of `execute_sell` once the quantity to sell is known: balance
mutations, the sell trade record, the FIFO matching block, the removal of
closed positions and the metrics update. -/
def sellSettle (cfg : SimConfig) (oracle : String → Option ℚ) (symbol base : String)
    (quantity price : ℚ) (σ : SimState) : TradeResult × SimState :=
  let amount := quantity * price
  let fee := amount * feeRate
  let pf1 := updatePortfolioBalance base (-quantity) σ.portfolio
  let pf2 := updatePortfolioBalance cfg.quoteCurrency (amount - fee) pf1
  let trade : Trade :=
    { symbol := symbol, side := .sell, price := price, quantity := quantity,
      amount := amount, fee := fee, isOpen := false, profitLoss := none,
      profitLossPct := none, matchedPosition := none }
  let tid := σ.trades.length
  let trades1 := σ.trades ++ [trade]
  let ids := posOf σ.openPositions symbol
  let afterMatch :=
    if ids = [] then (trades1, σ.perf, σ.openPositions)
    else
      let m := matchLoop price tid ids trades1 quantity σ.perf
      (m.1, m.2, setPos symbol (ids.filter (fun pid => (tradeAt m.1 pid).isOpen)) σ.openPositions)
  let σ' : SimState :=
    { portfolio := pf2, trades := afterMatch.1, openPositions := afterMatch.2.2,
      perf := afterMatch.2.1 }
  (.success tid, updatePerformanceMetrics cfg oracle σ')

/-- `TradingSimulator.execute_sell`. -/
def executeSell (cfg : SimConfig) (oracle : String → Option ℚ) (symbol : String)
    (quantity? amount? price? : Option ℚ) (σ : SimState) : TradeResult × SimState :=
  let base := baseCurrency cfg symbol
  if hasCur σ.portfolio base = false ∨ (balOf σ.portfolio base).available ≤ 0 then
    (.error .noBaseToSell, σ)
  else
    match resolvePrice oracle symbol price? with
    | none => (.error .priceLookupFailed, σ)
    | some price =>
      match quantity? with
      | some q =>
        if q > (balOf σ.portfolio base).available then (.error .insufficientBaseBalance, σ)
        else sellSettle cfg oracle symbol base q price σ
      | none =>
        match amount? with
        | none => sellSettle cfg oracle symbol base (balOf σ.portfolio base).available price σ
        | some a =>
          if a / price > (balOf σ.portfolio base).available then
            sellSettle cfg oracle symbol base (balOf σ.portfolio base).available price σ
          else sellSettle cfg oracle symbol base (a / price) price σ

/-- Strategy parameters (`TradingStrategy.strategy_params`). -/
structure StrategyParams where
  signalThreshold : ℚ
  emaWeight : ℚ
  rsiWeight : ℚ
  vwapWeight : ℚ
  positionSize : ℚ
  maxPositions : ℕ
  stopLoss : ℚ
  takeProfit : ℚ
deriving DecidableEq

/-- `TradingStrategy._get_strategy_params`: the risk-level table.  Levels
1, 2, 4, 5 override a subset of the defaults; every other integer (3
included) falls through to the level-3 defaults. -/
def getStrategyParams (riskLevel : ℤ) : StrategyParams :=
  let params : StrategyParams :=
    { signalThreshold := 1/2, emaWeight := 2/5, rsiWeight := 3/10, vwapWeight := 3/10,
      positionSize := 1/5, maxPositions := 5, stopLoss := 1/20, takeProfit := 1/10 }
  if riskLevel = 1 then
    { params with signalThreshold := 7/10, positionSize := 1/10, maxPositions := 3,
                  stopLoss := 3/100, takeProfit := 3/50 }
  else if riskLevel = 2 then
    { params with signalThreshold := 3/5, positionSize := 3/20, maxPositions := 4,
                  stopLoss := 1/25, takeProfit := 2/25 }
  else if riskLevel = 4 then
    { params with signalThreshold := 2/5, positionSize := 1/4, maxPositions := 6,
                  stopLoss := 3/50, takeProfit := 3/20 }
  else if riskLevel = 5 then
    { params with signalThreshold := 3/10, positionSize := 3/10, maxPositions := 8,
                  stopLoss := 2/25, takeProfit := 1/5 }
  else params

/-! ## Technical indicators (`technical_indicators.py`)

Price series are `List ℚ` (the `close` column, oldest first); float64
arithmetic is modelled as exact rational arithmetic, while the NaN/±inf
propagation of pandas — which is what decides the RSI boundary claim — is
modelled explicitly by `PVal`. -/

/-- A pandas float cell: NaN, ±infinity, or a finite value. -/
inductive PVal
  | nan
  | inf
  | ninf
  | fin (q : ℚ)
deriving DecidableEq

/-- Float addition on `PVal` cells. -/
def PVal.add : PVal → PVal → PVal
  | nan, _ => nan
  | _, nan => nan
  | inf, ninf => nan
  | ninf, inf => nan
  | inf, _ => inf
  | _, inf => inf
  | ninf, _ => ninf
  | _, ninf => ninf
  | fin a, fin b => fin (a + b)

/-- Float subtraction on `PVal` cells. -/
def PVal.sub : PVal → PVal → PVal
  | nan, _ => nan
  | _, nan => nan
  | inf, inf => nan
  | ninf, ninf => nan
  | inf, _ => inf
  | _, inf => ninf
  | ninf, _ => ninf
  | _, ninf => inf
  | fin a, fin b => fin (a - b)

/-- Float division on `PVal` cells: `0/0 = NaN`, `x/0 = ±inf` for `x ≠ 0`
(numpy semantics, with a warning the source ignores); a zero divisor is
treated as `+0`. -/
def PVal.div : PVal → PVal → PVal
  | nan, _ => nan
  | _, nan => nan
  | inf, inf => nan
  | inf, ninf => nan
  | ninf, inf => nan
  | ninf, ninf => nan
  | inf, fin b => if 0 ≤ b then inf else ninf
  | ninf, fin b => if 0 ≤ b then ninf else inf
  | fin _, inf => fin 0
  | fin _, ninf => fin 0
  | fin a, fin b =>
    if b = 0 then (if a = 0 then nan else if 0 < a then inf else ninf)
    else fin (a / b)

/-- `series.diff()` at row `i ≥ 1` (row 0 is NaN and is handled by the
window-validity condition of the rolling mean). -/
def deltaAt (xs : List ℚ) (i : ℕ) : ℚ :=
  xs.getD i 0 - xs.getD (i - 1) 0

/-- `gain = delta.copy(); gain[gain < 0] = 0`. -/
def gainAt (xs : List ℚ) (i : ℕ) : ℚ :=
  max (deltaAt xs i) 0

/-- `loss = delta.copy(); loss[loss > 0] = 0; loss = abs(loss)`. -/
def lossAt (xs : List ℚ) (i : ℕ) : ℚ :=
  |min (deltaAt xs i) 0|

/-- Sum of `f` over the trailing window `i - period + 1 .. i`. -/
def windowSum (f : ℕ → ℚ) (period i : ℕ) : ℚ :=
  ((List.range period).map (fun k => f (i - k))).sum

/-- `gain.rolling(window=period).mean()` at row `i` (only meaningful on a
valid window, see `rsiAt`). -/
def avgGainAt (xs : List ℚ) (period i : ℕ) : ℚ :=
  windowSum (gainAt xs) period i / (period : ℚ)

/-- `loss.rolling(window=period).mean()` at row `i`. -/
def avgLossAt (xs : List ℚ) (period i : ℕ) : ℚ :=
  windowSum (lossAt xs) period i / (period : ℚ)

/-- `TechnicalIndicators.calculate_rsi` at row `i`:
`rs = avg_gain / avg_loss; rsi = 100 - (100 / (1 + rs))`.
The rolling mean (with its default `min_periods = period`) is NaN whenever
the trailing window is incomplete or contains the NaN that `diff()` leaves
at row 0 — i.e. exactly when `i < period` — and a row beyond the series does
not exist, so both cases produce `.nan` here. -/
def rsiAt (xs : List ℚ) (period i : ℕ) : PVal :=
  if i < period ∨ xs.length ≤ i then .nan
  else
    PVal.sub (.fin 100)
      (PVal.div (.fin 100)
        (PVal.add (.fin 1)
          (PVal.div (.fin (avgGainAt xs period i)) (.fin (avgLossAt xs period i)))))

/-- `ewm(span, adjust=False).mean()` recurrence seeded with the running
value `y`: `y, then recurse with α·x + (1−α)·y`. -/
def ewmFrom (a y : ℚ) : List ℚ → List ℚ
  | [] => [y]
  | x :: xs => y :: ewmFrom a (a * x + (1 - a) * y) xs

/-- `series.ewm(span=n, adjust=False).mean()`: seeded by the first value. -/
def ewmMean (a : ℚ) : List ℚ → List ℚ
  | [] => []
  | x :: xs => ewmFrom a x xs

/-- `ema_7` column: `ewm(span=7, adjust=False)`, smoothing `2/(7+1)`. -/
def emaShortList (xs : List ℚ) : List ℚ :=
  ewmMean (2 / (7 + 1)) xs

/-- `ema_21` column: `ewm(span=21, adjust=False)`, smoothing `2/(21+1)`. -/
def emaLongList (xs : List ℚ) : List ℚ :=
  ewmMean (2 / (21 + 1)) xs

/-- `df['ema_above'] = df['ema_7'] > df['ema_21']` at row `i`. -/
def emaAboveAt (xs : List ℚ) (i : ℕ) : Bool :=
  decide ((emaLongList xs).getD i 0 < (emaShortList xs).getD i 0)

/-- `df['ema_above'].diff().fillna(0)` at row `i`.  pandas `Series.diff` on a
boolean column applies `xor` (not subtraction) and casts the result to
float64, so the value is `1.0` on any row where `ema_above` changed, `0.0`
where it did not, and NaN→`0` (via `fillna`) on row 0. -/
def emaDiffAt (xs : List ℚ) (i : ℕ) : ℚ :=
  if i = 0 then 0
  else if emaAboveAt xs i ≠ emaAboveAt xs (i - 1) then 1 else 0

/-- The `ema_signal` column of `TechnicalIndicators.generate_signals` after
the three `df.loc` threshold assignments (`> 0 ↦ 1`, `< 0 ↦ -1`, else 0). -/
def emaSignalAt (xs : List ℚ) (i : ℕ) : ℤ :=
  if 0 < emaDiffAt xs i then 1
  else if emaDiffAt xs i < 0 then -1
  else 0

/-! ## Call sequences against the simulator -/

/-- One external call to the simulator: `execute_buy` or `execute_sell`
with the arguments a caller controls. -/
inductive SimOp
  | buy (symbol : String) (amount : ℚ) (price : Option ℚ)
  | sell (symbol : String) (quantity amount price : Option ℚ)

/-- Execute one call, keeping the resulting state. -/
def stepOp (cfg : SimConfig) (oracle : String → Option ℚ) (σ : SimState) :
    SimOp → SimState
  | .buy s a p => (executeBuy cfg oracle s a p σ).2
  | .sell s q a p => (executeSell cfg oracle s q a p σ).2

/-- Run a sequence of calls. -/
def runOps (cfg : SimConfig) (oracle : String → Option ℚ) (ops : List SimOp)
    (σ : SimState) : SimState :=
  ops.foldl (stepOp cfg oracle) σ

/-- A call is well-formed when its amount/quantity arguments are nonnegative
and its explicit price (if any) is positive. -/
def SimOp.wfb : SimOp → Bool
  | .buy _ a p =>
    decide (0 ≤ a) && (match p with | none => true | some x => decide (0 < x))
  | .sell _ q a p =>
    (match q with | none => true | some x => decide (0 ≤ x)) &&
    (match a with | none => true | some x => decide (0 ≤ x)) &&
    (match p with | none => true | some x => decide (0 < x))

/-- The FIFO matches the loop in `execute_sell` will perform, computed from
the pre-loop trade store: walk the open-position list in order, consuming
each lot up to the remaining quantity. -/
def plannedMatches (price : ℚ) : List ℕ → List Trade → ℚ → List MatchRec
  | [], _, _ => []
  | pid :: rest, ts, remaining =>
    if remaining ≤ 0 then []
    else if (tradeAt ts pid).quantity ≤ remaining then
      { pid := pid, matched := (tradeAt ts pid).quantity,
        pl := (price - (tradeAt ts pid).price) * (tradeAt ts pid).quantity,
        plPct := (price - (tradeAt ts pid).price) / (tradeAt ts pid).price * 100 } ::
        plannedMatches price rest ts (remaining - (tradeAt ts pid).quantity)
    else
      { pid := pid, matched := remaining,
        pl := (price - (tradeAt ts pid).price) * remaining,
        plPct := (price - (tradeAt ts pid).price) / (tradeAt ts pid).price * 100 } ::
        plannedMatches price rest ts 0

/-- The trade fields the FIFO loop never writes. -/
def staticOf (t : Trade) : String × Side × ℚ × ℚ × ℚ :=
  (t.symbol, t.side, t.price, t.amount, t.fee)

/-- The realized-P/L fields of a trade dict, written only on the sell dict. -/
def plOf (t : Trade) : Option ℚ × Option ℚ × Option ℕ :=
  (t.profitLoss, t.profitLossPct, t.matchedPosition)

/-- Stamp the per-match fields of a `MatchRec` onto a (sell) trade dict. -/
def sellStamp (t : Trade) (r : MatchRec) : Trade :=
  { t with profitLoss := some r.pl, profitLossPct := some r.plPct,
           matchedPosition := some r.pid }

/-! ## Concrete scenario instances used by the claims -/

/-- The default simulator configuration: `starting_capital=10000.0`,
`quote_currency='USDT'`. -/
def cfg0 : SimConfig := ⟨10000, "USDT"⟩

/-- A market-data collector that cannot resolve any price (all scenario
trades pass explicit prices; valuation of non-quote currencies is skipped,
as `get_balance` does on a failed lookup). -/
def orc0 : String → Option ℚ := fun _ => none

/-- Claim C3 scenario: buy quantity 2 of BTC at 100 (amount 200), then sell
quantity 1 at 150. -/
def c3sell : TradeResult × SimState :=
  executeSell cfg0 orc0 "BTCUSDT" (some 1) none (some 150)
    (executeBuy cfg0 orc0 "BTCUSDT" 200 (some 100) (initState cfg0)).2

/-- Claim C4 scenario, buy leg: `execute_buy('BTCUSDT', amount=1000,
price=50000)` from the initial 10,000 USDT state. -/
def c4buy : TradeResult × SimState :=
  executeBuy cfg0 orc0 "BTCUSDT" 1000 (some 50000) (initState cfg0)

/-- Claim C4 scenario, sell leg: sell the full bought quantity at 55,000. -/
def c4sell : TradeResult × SimState :=
  executeSell cfg0 orc0 "BTCUSDT" (some ((tradeAt c4buy.2.trades 0).quantity)) none
    (some 55000) c4buy.2

/-- The trade dict `execute_buy` appends for a buy of `amount` at `price`
(wall-clock and id fields omitted, as in `Trade`). -/
def buyRec (s : String) (p a : ℚ) : Trade :=
  { symbol := s, side := .buy, price := p, quantity := calculateQuantity a p,
    amount := a, fee := a * feeRate, isOpen := true, profitLoss := none,
    profitLossPct := none, matchedPosition := none }

/-- The trade dict `execute_sell` appends for a sell of quantity `q` at
price `pr` (before the matching loop sets its realized-P/L fields). -/
def sellRec (s : String) (pr q : ℚ) : Trade :=
  { symbol := s, side := .sell, price := pr, quantity := q, amount := q * pr,
    fee := q * pr * feeRate, isOpen := false, profitLoss := none,
    profitLossPct := none, matchedPosition := none }

/-- Claim C10 witness scenario: a trade store with two open lots
(quantity 1 at 100, quantity 1 at 200) and a sell trade dict at index 2. -/
def c10ts : List Trade :=
  [{ symbol := "BTCUSDT", side := .buy, price := 100, quantity := 1, amount := 100,
     fee := 1/10, isOpen := true, profitLoss := none, profitLossPct := none,
     matchedPosition := none },
   { symbol := "BTCUSDT", side := .buy, price := 200, quantity := 1, amount := 200,
     fee := 1/5, isOpen := true, profitLoss := none, profitLossPct := none,
     matchedPosition := none },
   { symbol := "BTCUSDT", side := .sell, price := 150, quantity := 2, amount := 300,
     fee := 3/10, isOpen := false, profitLoss := none, profitLossPct := none,
     matchedPosition := none }]

/-! ## Helper lemmas on the trade store -/

theorem tradeAt_set_ne (ts : List Trade) (i j : ℕ) (t : Trade) (h : j ≠ i) :
    tradeAt (ts.set i t) j = tradeAt ts j := by
  induction ts generalizing i j with
  | nil => rfl
  | cons hd tl ih =>
    cases i with
    | zero =>
      cases j with
      | zero => exact absurd rfl h
      | succ j' => rfl
    | succ i' =>
      cases j with
      | zero => rfl
      | succ j' => exact ih i' j' (fun he => h (by omega))

theorem tradeAt_set_self (ts : List Trade) (i : ℕ) (t : Trade) (h : i < ts.length) :
    tradeAt (ts.set i t) i = t := by
  induction ts generalizing i with
  | nil => simp at h
  | cons hd tl ih =>
    cases i with
    | zero => rfl
    | succ i' => exact ih i' (by simpa using h)

theorem tradeAt_append_lt (ts ts' : List Trade) (i : ℕ) (h : i < ts.length) :
    tradeAt (ts ++ ts') i = tradeAt ts i := by
  unfold tradeAt
  induction ts generalizing i with
  | nil => simp at h
  | cons hd tl ih =>
    cases i with
    | zero => rfl
    | succ i' => exact ih i' (by simpa using h)

theorem tradeAt_append_self (ts : List Trade) (t : Trade) :
    tradeAt (ts ++ [t]) ts.length = t := by
  unfold tradeAt
  induction ts with
  | nil => rfl
  | cons hd tl ih => simp [ih]

theorem length_set_trades (ts : List Trade) (i : ℕ) (t : Trade) :
    (ts.set i t).length = ts.length :=
  List.length_set ts i t

/-! ## Projection lemmas: `_update_performance_metrics` only touches `perf` -/

theorem upm_portfolio (cfg : SimConfig) (oracle : String → Option ℚ) (σ : SimState) :
    (updatePerformanceMetrics cfg oracle σ).portfolio = σ.portfolio := rfl

theorem upm_trades (cfg : SimConfig) (oracle : String → Option ℚ) (σ : SimState) :
    (updatePerformanceMetrics cfg oracle σ).trades = σ.trades := rfl

theorem upm_open (cfg : SimConfig) (oracle : String → Option ℚ) (σ : SimState) :
    (updatePerformanceMetrics cfg oracle σ).openPositions = σ.openPositions := rfl

theorem btc_ne_usdt : ("BTC" : String) ≠ "USDT" := by decide

theorem usdt_ne_btc : ("USDT" : String) ≠ "BTC" := by decide

theorem baseCurrency_btcusdt :
    baseCurrency { startingCapital := 10000, quoteCurrency := "USDT" } "BTCUSDT" = "BTC" := by
  with_unfolding_all decide

/-! ## Claim C3 -/

/-- Claim C3: after a buy of quantity 2 at price 100, a sell of quantity 1
at price 150 reduces the matched lot's remaining quantity to 1, realizes
`profit_loss = 50` and `profit_loss_pct = 50` on the sell trade, and the lot
stays in the symbol's open-position list with `is_open` still true. -/
theorem c3_fifo_partial_match :
    (tradeAt c3sell.2.trades 0).quantity = 1 ∧
    (tradeAt c3sell.2.trades 0).isOpen = true ∧
    (tradeAt c3sell.2.trades 1).profitLoss = some 50 ∧
    (tradeAt c3sell.2.trades 1).profitLossPct = some 50 ∧
    posOf c3sell.2.openPositions "BTCUSDT" = [0] := by
  refine ⟨?_, ?_, ?_, ?_, ?_⟩ <;>
    norm_num [c3sell, c4buy, c4sell, executeSell, executeBuy, sellSettle, matchLoop, sellWrite, matchPerf, sellWrite, matchPerf,
      initState, cfg0, orc0, balOf, hasCur, updatePortfolioBalance, calculateQuantity,
      quantize8, truncTowardZero, feeRate, resolvePrice, appendPos, setPos, posOf,
      upm_portfolio, upm_trades, upm_open, tradeAt, baseCurrency_btcusdt, btc_ne_usdt,
      usdt_ne_btc, List.getD_cons_zero, List.getD_cons_succ, List.getD_nil]

/-! ## Claim C4 -/

/-- Claim C4, counterexample: the code yields quantity exactly `0.02`
(`1000/50000` truncates to `0.02000000`, not `0.01999999`: the quantity is
not fee-adjusted) and realized `profit_loss` exactly `100` (not
`99.999450`), so the claimed approximate values are wrong. -/
theorem c4_counterexample :
    (tradeAt c4buy.2.trades 0).quantity = 1/50 ∧ ¬(1/50 : ℚ) = 1999999/100000000 ∧
    (tradeAt c4sell.2.trades 1).profitLoss = some 100 ∧ ¬(100 : ℚ) = 9999945/100000 := by
  refine ⟨?_, by norm_num, ?_, by norm_num⟩ <;>
    norm_num [c3sell, c4buy, c4sell, executeSell, executeBuy, sellSettle, matchLoop, sellWrite, matchPerf, sellWrite, matchPerf,
      initState, cfg0, orc0, balOf, hasCur, updatePortfolioBalance, calculateQuantity,
      quantize8, truncTowardZero, feeRate, resolvePrice, appendPos, setPos, posOf,
      upm_portfolio, upm_trades, upm_open, tradeAt, baseCurrency_btcusdt, btc_ne_usdt,
      usdt_ne_btc, List.getD_cons_zero, List.getD_cons_succ, List.getD_nil]

/-- Claim C4, amended: from capital 10,000 USDT,
`execute_buy("BTCUSDT", amount=1000, price=50000)` yields quantity exactly
0.02 (amount/price truncated to 8 decimal places — not fee-adjusted),
fee = 1.0 USDT, quote available 9,000; the subsequent sell of the full
quantity at 55,000 yields proceeds exactly 1,100, fee exactly 1.1, and
realized `profit_loss` exactly +100 (`profit_loss_pct` +10). -/
theorem c4_amended :
    c4buy.1 = .success 0 ∧
    (tradeAt c4buy.2.trades 0).quantity = 1/50 ∧
    (tradeAt c4buy.2.trades 0).fee = 1 ∧
    (balOf c4buy.2.portfolio "USDT").available = 9000 ∧
    c4sell.1 = .success 1 ∧
    (tradeAt c4sell.2.trades 1).amount = 1100 ∧
    (tradeAt c4sell.2.trades 1).fee = 11/10 ∧
    (tradeAt c4sell.2.trades 1).profitLoss = some 100 ∧
    (tradeAt c4sell.2.trades 1).profitLossPct = some 10 := by
  refine ⟨?_, ?_, ?_, ?_, ?_, ?_, ?_, ?_, ?_⟩ <;>
    norm_num [c3sell, c4buy, c4sell, executeSell, executeBuy, sellSettle, matchLoop, sellWrite, matchPerf, sellWrite, matchPerf,
      initState, cfg0, orc0, balOf, hasCur, updatePortfolioBalance, calculateQuantity,
      quantize8, truncTowardZero, feeRate, resolvePrice, appendPos, setPos, posOf,
      upm_portfolio, upm_trades, upm_open, tradeAt, baseCurrency_btcusdt, btc_ne_usdt,
      usdt_ne_btc, List.getD_cons_zero, List.getD_cons_succ, List.getD_nil]

/-! ## Claim C7 -/

/-- Claim C7, counterexample: on a flat price series (15 samples of 100,
RSI period 14) both the average gain and the average loss of the trailing
window are zero, `rs = 0/0` is NaN, and the RSI row is NaN — not 100. -/
theorem c7_counterexample :
    rsiAt (List.replicate 15 100) 14 14 = PVal.nan ∧ PVal.nan ≠ PVal.fin 100 := by
  with_unfolding_all decide

/-- Claim C7, amended: on a valid RSI window with zero average loss, the RSI
row is 100 only when the average gain is positive (`rs = avgGain/0 = +inf`);
when the average gain is zero as well (a flat window), `rs = 0/0` is NaN and
the RSI row is NaN, not 100. -/
theorem c7_amended (xs : List ℚ) (period i : ℕ)
    (hper : period ≤ i) (hlen : i < xs.length)
    (hloss : avgLossAt xs period i = 0) :
    (0 < avgGainAt xs period i → rsiAt xs period i = PVal.fin 100) ∧
    (avgGainAt xs period i = 0 → rsiAt xs period i = PVal.nan) := by
  have hcond : ¬(i < period ∨ xs.length ≤ i) := by
    push_neg
    exact ⟨Nat.not_lt.mp (by omega), hlen⟩
  constructor
  · intro hg
    have hdiv : PVal.div (.fin (avgGainAt xs period i)) (.fin (avgLossAt xs period i))
        = PVal.inf := by
      rw [hloss]
      show (if (0:ℚ) = 0 then
        (if avgGainAt xs period i = 0 then PVal.nan
         else if 0 < avgGainAt xs period i then PVal.inf else PVal.ninf)
        else PVal.fin (avgGainAt xs period i / 0)) = PVal.inf
      rw [if_pos rfl, if_neg (ne_of_gt hg), if_pos hg]
    rw [rsiAt, if_neg hcond, hdiv]
    show PVal.fin (100 - 0) = PVal.fin 100
    norm_num
  · intro hg
    have hdiv : PVal.div (.fin (avgGainAt xs period i)) (.fin (avgLossAt xs period i))
        = PVal.nan := by
      rw [hloss, hg]
      show (if (0:ℚ) = 0 then
        (if (0:ℚ) = 0 then PVal.nan
         else if (0:ℚ) < 0 then PVal.inf else PVal.ninf)
        else PVal.fin (0 / 0)) = PVal.nan
      rw [if_pos rfl, if_pos rfl]
    rw [rsiAt, if_neg hcond, hdiv]
    rfl

/-- Witness for the amended C7 theorem: the rising series `[1, 2, 3]` with
period 2 has zero average loss and positive average gain at row 2, and its
RSI row is 100. -/
theorem c7_witness :
    avgLossAt [1, 2, 3] 2 2 = 0 ∧ 0 < avgGainAt [1, 2, 3] 2 2 ∧
    rsiAt [1, 2, 3] 2 2 = PVal.fin 100 :=
  ⟨by with_unfolding_all decide, by with_unfolding_all decide,
    (c7_amended [1, 2, 3] 2 2 (by decide) (by decide) (by with_unfolding_all decide)).1
      (by with_unfolding_all decide)⟩

/-! ## Claim C9 -/

/-- Claim C9, counterexample: a risk level outside 1–5 (here 6) is not
rejected — `_get_strategy_params` silently returns the default level-3
parameters — and a negative amount (−5) supplied to `execute_buy` is not
rejected either: the call succeeds and mutates the portfolio, driving the
base available balance negative. -/
theorem c9_counterexample :
    getStrategyParams 6 = getStrategyParams 3 ∧
    (executeBuy cfg0 orc0 "BTCUSDT" (-5) (some 50000) (initState cfg0)).1 = .success 0 ∧
    (balOf (executeBuy cfg0 orc0 "BTCUSDT" (-5) (some 50000) (initState cfg0)).2.portfolio
      "BTC").available < 0 := by
  refine ⟨by with_unfolding_all decide, ?_, ?_⟩ <;>
    norm_num [c3sell, c4buy, c4sell, executeSell, executeBuy, sellSettle, matchLoop, sellWrite, matchPerf, sellWrite, matchPerf,
      initState, cfg0, orc0, balOf, hasCur, updatePortfolioBalance, calculateQuantity,
      quantize8, truncTowardZero, feeRate, resolvePrice, appendPos, setPos, posOf,
      upm_portfolio, upm_trades, upm_open, tradeAt, baseCurrency_btcusdt, btc_ne_usdt,
      usdt_ne_btc, List.getD_cons_zero, List.getD_cons_succ, List.getD_nil]

/-- Claim C9, amended: neither boundary is validated.  A risk level outside
1–5 is silently mapped to the default level-3 parameter set (no structured
error exists in `_get_strategy_params`), and a negative amount supplied to
`execute_buy` passes the balance check (it is below any nonnegative
available balance) and the buy is applied with a success status, mutating
portfolio state. -/
theorem c9_amended :
    (∀ r : ℤ, r ≠ 1 → r ≠ 2 → r ≠ 4 → r ≠ 5 →
      getStrategyParams r = getStrategyParams 3) ∧
    (∀ (cfg : SimConfig) (oracle : String → Option ℚ) (s : String) (a p : ℚ)
      (σ : SimState), a < 0 → 0 ≤ (balOf σ.portfolio cfg.quoteCurrency).available →
      (executeBuy cfg oracle s a (some p) σ).1 = .success σ.trades.length) := by
  constructor
  · intro r h1 h2 h4 h5
    rw [getStrategyParams, getStrategyParams]
    rw [if_neg h1, if_neg h2, if_neg h4, if_neg h5]
    rfl
  · intro cfg oracle s a p σ ha hbal
    rw [executeBuy]
    rw [if_neg (by exact not_lt.mpr (le_trans (le_of_lt ha) hbal))]
    rfl

/-- Witness for the amended C9 theorem at risk level 6 and a −5 buy from the
initial state. -/
theorem c9_witness :
    getStrategyParams 6 = getStrategyParams 3 ∧
    (executeBuy cfg0 orc0 "BTCUSDT" (-5) (some 50000) (initState cfg0)).1 = .success 0 :=
  ⟨c9_amended.1 6 (by decide) (by decide) (by decide) (by decide),
   c9_amended.2 cfg0 orc0 "BTCUSDT" (-5) 50000 (initState cfg0) (by norm_num)
     (by norm_num [initState, cfg0, balOf])⟩

/-! ## Claim C6 -/

theorem sellSettle_fst (cfg : SimConfig) (oracle : String → Option ℚ)
    (symbol base : String) (q p : ℚ) (σ : SimState) :
    (sellSettle cfg oracle symbol base q p σ).1 = .success σ.trades.length := by
  rw [sellSettle]

/-- Claim C6: whenever `execute_buy` or `execute_sell` returns an error
result (insufficient balance, no base currency, or failure to resolve a
price), the returned state — portfolio balances, trade history,
open-position lists and performance metrics — is exactly the pre-call state:
no partial mutation happens on any error path. -/
theorem c6_error_atomicity (cfg : SimConfig) (oracle : String → Option ℚ)
    (symbol : String) (amount : ℚ) (quantity? amount? price? : Option ℚ)
    (σ : SimState) :
    ((executeBuy cfg oracle symbol amount price? σ).1.isError = true →
      (executeBuy cfg oracle symbol amount price? σ).2 = σ) ∧
    ((executeSell cfg oracle symbol quantity? amount? price? σ).1.isError = true →
      (executeSell cfg oracle symbol quantity? amount? price? σ).2 = σ) := by
  constructor
  · rw [executeBuy]
    split
    · exact fun _ => rfl
    · split
      · exact fun _ => rfl
      · intro h
        simp [TradeResult.isError] at h
  · rw [executeSell]
    split
    · exact fun _ => rfl
    · split
      · exact fun _ => rfl
      · split
        · split
          · exact fun _ => rfl
          · intro h
            rw [sellSettle_fst] at h
            simp [TradeResult.isError] at h
        · split
          · intro h
            rw [sellSettle_fst] at h
            simp [TradeResult.isError] at h
          · split
            · intro h
              rw [sellSettle_fst] at h
              simp [TradeResult.isError] at h
            · intro h
              rw [sellSettle_fst] at h
              simp [TradeResult.isError] at h

/-- Witness for C6: an over-large buy (20,000 from a 10,000 balance) errors
and leaves the state unchanged, and a sell on a symbol with no base balance
errors and leaves the state unchanged. -/
theorem c6_witness :
    (executeBuy cfg0 orc0 "BTCUSDT" 20000 (some 50000) (initState cfg0)).2 = initState cfg0 ∧
    (executeSell cfg0 orc0 "BTCUSDT" (some 1) none (some 50000) (initState cfg0)).2
      = initState cfg0 :=
  ⟨(c6_error_atomicity cfg0 orc0 "BTCUSDT" 20000 (some 1) none (some 50000)
      (initState cfg0)).1
    (by norm_num [executeBuy, initState, cfg0, balOf, TradeResult.isError]),
   (c6_error_atomicity cfg0 orc0 "BTCUSDT" 20000 (some 1) none (some 50000)
      (initState cfg0)).2
    (by norm_num [executeSell, initState, cfg0, balOf, hasCur, baseCurrency_btcusdt,
      TradeResult.isError, btc_ne_usdt, usdt_ne_btc])⟩

/-! ## Claim C2 -/

set_option maxHeartbeats 1000000 in
/-- Claim C2: after buy B1 (quantity 1 at price 100, index 0) and buy B2
(quantity 1 at price 200, index 1) on the same symbol, a sell of quantity 1
at any price `p` matches entirely against B1 — its realized P/L is
`(p − 100) · 1`, computed from entry price 100, not 200, and its
`matched_position` back-reference is B1 — B1 is marked closed and removed
from the open-position list, and B2 remains open. -/
theorem c2_fifo_oldest_first (p : ℚ) :
    (tradeAt (executeSell cfg0 orc0 "BTCUSDT" (some 1) none (some p)
        (executeBuy cfg0 orc0 "BTCUSDT" 200 (some 200)
          (executeBuy cfg0 orc0 "BTCUSDT" 100 (some 100) (initState cfg0)).2).2).2.trades
        2).profitLoss = some ((p - 100) * 1) ∧
    (tradeAt (executeSell cfg0 orc0 "BTCUSDT" (some 1) none (some p)
        (executeBuy cfg0 orc0 "BTCUSDT" 200 (some 200)
          (executeBuy cfg0 orc0 "BTCUSDT" 100 (some 100) (initState cfg0)).2).2).2.trades
        2).matchedPosition = some 0 ∧
    (tradeAt (executeSell cfg0 orc0 "BTCUSDT" (some 1) none (some p)
        (executeBuy cfg0 orc0 "BTCUSDT" 200 (some 200)
          (executeBuy cfg0 orc0 "BTCUSDT" 100 (some 100) (initState cfg0)).2).2).2.trades
        0).isOpen = false ∧
    (tradeAt (executeSell cfg0 orc0 "BTCUSDT" (some 1) none (some p)
        (executeBuy cfg0 orc0 "BTCUSDT" 200 (some 200)
          (executeBuy cfg0 orc0 "BTCUSDT" 100 (some 100) (initState cfg0)).2).2).2.trades
        1).isOpen = true ∧
    (tradeAt (executeSell cfg0 orc0 "BTCUSDT" (some 1) none (some p)
        (executeBuy cfg0 orc0 "BTCUSDT" 200 (some 200)
          (executeBuy cfg0 orc0 "BTCUSDT" 100 (some 100) (initState cfg0)).2).2).2.trades
        1).quantity = 1 ∧
    posOf (executeSell cfg0 orc0 "BTCUSDT" (some 1) none (some p)
        (executeBuy cfg0 orc0 "BTCUSDT" 200 (some 200)
          (executeBuy cfg0 orc0 "BTCUSDT" 100 (some 100) (initState cfg0)).2).2).2.openPositions
      "BTCUSDT" = [1] := by
  refine ⟨?_, ?_, ?_, ?_, ?_, ?_⟩ <;>
    norm_num [executeSell, executeBuy, sellSettle, matchLoop, sellWrite, matchPerf,
      initState, cfg0, orc0, balOf, hasCur, updatePortfolioBalance, calculateQuantity,
      quantize8, truncTowardZero, feeRate, resolvePrice, appendPos, setPos, posOf,
      upm_portfolio, upm_trades, upm_open, tradeAt, baseCurrency_btcusdt, btc_ne_usdt,
      usdt_ne_btc, List.getD_cons_zero, List.getD_cons_succ, List.getD_nil,
      List.set_cons_zero, List.set_cons_succ, List.cons_ne_nil]

/-! ## Claim C8 -/

/-- Claim C8: for every input series, `ema_signal` is nonzero only on a bar
where the boolean `short EMA > long EMA` changed relative to the previous
bar (and never on bar 0); the buy signal fires exactly once, with value 1 on
the transition bar from ≤ to >, and `ema_signal` is 0 on every subsequent
bar while the short EMA stays above the long EMA. -/
theorem c8_ema_edge_trigger (xs : List ℚ) (i : ℕ) :
    (emaSignalAt xs i ≠ 0 → 0 < i ∧ emaAboveAt xs i ≠ emaAboveAt xs (i - 1)) ∧
    (0 < i → emaAboveAt xs (i - 1) = false → emaAboveAt xs i = true →
      emaSignalAt xs i = 1) ∧
    (0 < i → emaAboveAt xs (i - 1) = true → emaAboveAt xs i = true →
      emaSignalAt xs i = 0) ∧
    emaSignalAt xs 0 = 0 := by
  have h0 : emaSignalAt xs 0 = 0 := by
    simp [emaSignalAt, emaDiffAt]
  refine ⟨?_, ?_, ?_, h0⟩
  · intro h
    rcases Nat.eq_zero_or_pos i with hi | hi
    · exact absurd (hi ▸ h0) (hi ▸ h)
    · refine ⟨hi, ?_⟩
      intro hab
      apply h
      simp [emaSignalAt, emaDiffAt, Nat.pos_iff_ne_zero.mp hi, hab]
  · intro hi hprev hcur
    simp [emaSignalAt, emaDiffAt, Nat.pos_iff_ne_zero.mp hi, hprev, hcur]
  · intro hi hprev hcur
    simp [emaSignalAt, emaDiffAt, Nat.pos_iff_ne_zero.mp hi, hprev, hcur]

/-- Witness for C8 on the series `[0, 100]`: the short EMA crosses above the
long EMA on bar 1 (`ema_above` goes false → true), and the signal there
is 1. -/
theorem c8_witness :
    emaAboveAt [0, 100] 0 = false ∧ emaAboveAt [0, 100] 1 = true ∧
    emaSignalAt [0, 100] 1 = 1 :=
  ⟨by with_unfolding_all decide, by with_unfolding_all decide,
   (c8_ema_edge_trigger [0, 100] 1).2.1 (by decide)
     (by with_unfolding_all decide) (by with_unfolding_all decide)⟩

/-! ## FIFO matching-loop lemmas -/

theorem set_of_length_le (ts : List Trade) (i : ℕ) (t : Trade) (h : ts.length ≤ i) :
    ts.set i t = ts := by
  induction ts generalizing i with
  | nil => rfl
  | cons hd tl ih =>
    cases i with
    | zero => simp at h
    | succ i' => rw [List.set_cons_succ, ih i' (by simpa using h)]

theorem staticOf_set (ts : List Trade) (i j : ℕ) (t : Trade)
    (h : staticOf t = staticOf (tradeAt ts i)) :
    staticOf (tradeAt (ts.set i t) j) = staticOf (tradeAt ts j) := by
  rcases eq_or_ne j i with rfl | hj
  · rcases lt_or_le j ts.length with hl | hl
    · rw [tradeAt_set_self _ _ _ hl, h]
    · rw [set_of_length_le _ _ _ hl]
  · rw [tradeAt_set_ne _ _ _ _ hj]

theorem plOf_set (ts : List Trade) (i j : ℕ) (t : Trade)
    (h : plOf t = plOf (tradeAt ts i)) :
    plOf (tradeAt (ts.set i t) j) = plOf (tradeAt ts j) := by
  rcases eq_or_ne j i with rfl | hj
  · rcases lt_or_le j ts.length with hl | hl
    · rw [tradeAt_set_self _ _ _ hl, h]
    · rw [set_of_length_le _ _ _ hl]
  · rw [tradeAt_set_ne _ _ _ _ hj]

theorem sellWrite_length (sid pid : ℕ) (pl pct : ℚ) (ts : List Trade) :
    (sellWrite sid pid pl pct ts).length = ts.length := by
  rw [sellWrite, List.length_set]

theorem staticOf_sellWrite (sid pid : ℕ) (pl pct : ℚ) (ts : List Trade) (j : ℕ) :
    staticOf (tradeAt (sellWrite sid pid pl pct ts) j) = staticOf (tradeAt ts j) :=
  staticOf_set ts sid j _ rfl

theorem plOf_sellWrite_ne (sid pid : ℕ) (pl pct : ℚ) (ts : List Trade) (j : ℕ)
    (hj : j ≠ sid) :
    plOf (tradeAt (sellWrite sid pid pl pct ts) j) = plOf (tradeAt ts j) := by
  rw [sellWrite, tradeAt_set_ne _ _ _ _ hj]

theorem staticOf_set_close (ts : List Trade) (pid j : ℕ) :
    staticOf (tradeAt (ts.set pid { tradeAt ts pid with isOpen := false }) j)
      = staticOf (tradeAt ts j) :=
  staticOf_set ts pid j _ rfl

theorem staticOf_set_shrink (ts : List Trade) (pid j : ℕ) (q : ℚ) :
    staticOf (tradeAt (ts.set pid { tradeAt ts pid with quantity := q }) j)
      = staticOf (tradeAt ts j) :=
  staticOf_set ts pid j _ rfl

theorem plOf_set_close (ts : List Trade) (pid j : ℕ) :
    plOf (tradeAt (ts.set pid { tradeAt ts pid with isOpen := false }) j)
      = plOf (tradeAt ts j) :=
  plOf_set ts pid j _ rfl

theorem plOf_set_shrink (ts : List Trade) (pid j : ℕ) (q : ℚ) :
    plOf (tradeAt (ts.set pid { tradeAt ts pid with quantity := q }) j)
      = plOf (tradeAt ts j) :=
  plOf_set ts pid j _ rfl

theorem matchLoop_length (price : ℚ) (sid : ℕ) (ids : List ℕ) :
    ∀ (ts : List Trade) (R : ℚ) (pf : Perf),
      (matchLoop price sid ids ts R pf).1.length = ts.length := by
  induction ids with
  | nil => intro ts R pf; rfl
  | cons pid rest ih =>
    intro ts R pf
    rw [matchLoop]
    split
    · rfl
    · split
      · rw [ih, sellWrite_length, List.length_set]
      · rw [ih, sellWrite_length, List.length_set]

theorem matchLoop_staticOf (price : ℚ) (sid : ℕ) (ids : List ℕ) :
    ∀ (ts : List Trade) (R : ℚ) (pf : Perf) (j : ℕ),
      staticOf (tradeAt (matchLoop price sid ids ts R pf).1 j) = staticOf (tradeAt ts j) := by
  induction ids with
  | nil => intro ts R pf j; rfl
  | cons pid rest ih =>
    intro ts R pf j
    rw [matchLoop]
    split
    · rfl
    · split
      · rw [ih, staticOf_sellWrite, staticOf_set_close]
      · rw [ih, staticOf_sellWrite, staticOf_set_shrink]

theorem matchLoop_plOf (price : ℚ) (sid : ℕ) (ids : List ℕ) :
    ∀ (ts : List Trade) (R : ℚ) (pf : Perf) (j : ℕ), j ≠ sid →
      plOf (tradeAt (matchLoop price sid ids ts R pf).1 j) = plOf (tradeAt ts j) := by
  induction ids with
  | nil => intro ts R pf j _; rfl
  | cons pid rest ih =>
    intro ts R pf j hj
    rw [matchLoop]
    split
    · rfl
    · split
      · rw [ih _ _ _ _ hj, plOf_sellWrite_ne _ _ _ _ _ _ hj, plOf_set_close]
      · rw [ih _ _ _ _ hj, plOf_sellWrite_ne _ _ _ _ _ _ hj, plOf_set_shrink]

theorem plannedMatches_congr (price : ℚ) (ids : List ℕ) :
    ∀ (ts ts' : List Trade) (R : ℚ),
      (∀ q ∈ ids, tradeAt ts' q = tradeAt ts q) →
      plannedMatches price ids ts' R = plannedMatches price ids ts R := by
  induction ids with
  | nil => intros; rfl
  | cons pid rest ih =>
    intro ts ts' R h
    have hpid : tradeAt ts' pid = tradeAt ts pid := h pid (List.mem_cons_self _ _)
    have hrest : ∀ q ∈ rest, tradeAt ts' q = tradeAt ts q :=
      fun q hq => h q (List.mem_cons_of_mem _ hq)
    rw [plannedMatches, plannedMatches, hpid]
    split
    · rfl
    · split
      · rw [ih _ _ _ hrest]
      · rw [ih _ _ _ hrest]

theorem matchPerf_total (pf : Perf) (pl : ℚ) :
    (matchPerf pf pl).totalProfitLoss = pf.totalProfitLoss + pl := by
  rw [matchPerf]; split <;> rfl

theorem matchPerf_win (pf : Perf) (pl : ℚ) :
    (matchPerf pf pl).winCount = pf.winCount + (if 0 < pl then 1 else 0) := by
  rw [matchPerf]; split <;> simp

theorem matchPerf_loss (pf : Perf) (pl : ℚ) :
    (matchPerf pf pl).lossCount = pf.lossCount + (if 0 < pl then 0 else 1) := by
  rw [matchPerf]; split <;> simp

theorem tradeAt_write_ne (sid pid : ℕ) (pl pct : ℚ) (ts : List Trade) (t : Trade)
    (q : ℕ) (hq1 : q ≠ sid) (hq2 : q ≠ pid) :
    tradeAt (sellWrite sid pid pl pct (ts.set pid t)) q = tradeAt ts q := by
  rw [sellWrite, tradeAt_set_ne _ _ _ _ hq1, tradeAt_set_ne _ _ _ _ hq2]

theorem getLast?_cons_of_ne_nil (r0 : MatchRec) (l : List MatchRec) (h : l ≠ []) :
    (r0 :: l).getLast? = l.getLast? := by
  cases l with
  | nil => exact absurd rfl h
  | cons a t => rw [List.getLast?_cons_cons]

theorem sell_overwrite (t : Trade) (a b : Option ℚ) (c : Option ℕ)
    (a' b' : Option ℚ) (c' : Option ℕ) :
    ({ { t with profitLoss := a, profitLossPct := b, matchedPosition := c } with
       profitLoss := a', profitLossPct := b', matchedPosition := c' } : Trade)
    = { t with profitLoss := a', profitLossPct := b', matchedPosition := c' } := rfl

/-- The loop's effect on the performance counters: `total_profit_loss` grows
by the sum of the per-lot realized P/Ls, and `win_count`/`loss_count` are
incremented once per matched lot (positive P/L → win, otherwise loss). -/
theorem matchLoop_perf (price : ℚ) (sid : ℕ) (ids : List ℕ) :
    ∀ (ts : List Trade) (R : ℚ) (pf : Perf), ids.Nodup → sid ∉ ids →
      ((matchLoop price sid ids ts R pf).2.totalProfitLoss
          = pf.totalProfitLoss + ((plannedMatches price ids ts R).map MatchRec.pl).sum) ∧
      ((matchLoop price sid ids ts R pf).2.winCount
          = pf.winCount + (plannedMatches price ids ts R).countP (fun r => decide (0 < r.pl))) ∧
      ((matchLoop price sid ids ts R pf).2.lossCount
          = pf.lossCount + (plannedMatches price ids ts R).countP (fun r => !decide (0 < r.pl))) := by
  induction ids with
  | nil =>
    intro ts R pf _ _
    simp [matchLoop, plannedMatches]
  | cons pid rest ih =>
    intro ts R pf hnd hsid
    have hnd' : rest.Nodup := (List.nodup_cons.mp hnd).2
    have hpid : pid ∉ rest := (List.nodup_cons.mp hnd).1
    have hsid' : sid ∉ rest := fun h => hsid (List.mem_cons_of_mem _ h)
    rw [matchLoop, plannedMatches]
    split
    · simp
    · have hcongr : ∀ (t : Trade) (plw pctw : ℚ),
          plannedMatches price rest (sellWrite sid pid plw pctw (ts.set pid t)) = fun R' =>
            plannedMatches price rest ts R' := by
        intro t plw pctw
        funext R'
        exact plannedMatches_congr price rest ts _ R'
          (fun q hq => tradeAt_write_ne sid pid plw pctw ts t q
            (fun h => hsid' (h ▸ hq)) (fun h => hpid (h ▸ hq)))
      split
      · obtain ⟨h1, h2, h3⟩ := ih _ _ _ hnd' hsid'
        refine ⟨?_, ?_, ?_⟩
        · rw [h1, congrFun (hcongr _ _ _) _, matchPerf_total, List.map_cons, List.sum_cons]
          ring
        · rw [h2, congrFun (hcongr _ _ _) _, matchPerf_win, List.countP_cons]
          simp only [decide_eq_true_eq]
          ring
        · rw [h3, congrFun (hcongr _ _ _) _, matchPerf_loss, List.countP_cons]
          simp only [Bool.not_eq_true', decide_eq_false_iff_not]
          rcases lt_or_le 0 ((price - (tradeAt ts pid).price) * (tradeAt ts pid).quantity) with hp | hp
          · rw [if_pos hp, if_neg (not_not_intro hp)]
            ring
          · rw [if_neg (not_lt.mpr hp), if_pos (not_lt.mpr hp)]
            ring
      · obtain ⟨h1, h2, h3⟩ := ih _ _ _ hnd' hsid'
        refine ⟨?_, ?_, ?_⟩
        · rw [h1, congrFun (hcongr _ _ _) _, matchPerf_total, List.map_cons, List.sum_cons]
          ring
        · rw [h2, congrFun (hcongr _ _ _) _, matchPerf_win, List.countP_cons]
          simp only [decide_eq_true_eq]
          ring
        · rw [h3, congrFun (hcongr _ _ _) _, matchPerf_loss, List.countP_cons]
          simp only [Bool.not_eq_true', decide_eq_false_iff_not]
          rcases lt_or_le 0 ((price - (tradeAt ts pid).price) * R) with hp | hp
          · rw [if_pos hp, if_neg (not_not_intro hp)]
            ring
          · rw [if_neg (not_lt.mpr hp), if_pos (not_lt.mpr hp)]
            ring

/-- The loop's effect on the sell trade dict: each iteration overwrites
`profit_loss`, `profit_loss_pct` and `matched_position`, so after the loop
they hold exactly the values of the last matched lot (and are untouched when
nothing matched). -/
theorem matchLoop_sell (price : ℚ) (sid : ℕ) (ids : List ℕ) :
    ∀ (ts : List Trade) (R : ℚ) (pf : Perf), ids.Nodup → sid ∉ ids → sid < ts.length →
      tradeAt (matchLoop price sid ids ts R pf).1 sid =
        ((plannedMatches price ids ts R).getLast?).elim (tradeAt ts sid)
          (sellStamp (tradeAt ts sid)) := by
  induction ids with
  | nil => intro ts R pf _ _ _; rfl
  | cons pid rest ih =>
    intro ts R pf hnd hsid hlen
    have hnd' : rest.Nodup := (List.nodup_cons.mp hnd).2
    have hpid : pid ∉ rest := (List.nodup_cons.mp hnd).1
    have hsid' : sid ∉ rest := fun h => hsid (List.mem_cons_of_mem _ h)
    have hsidpid : sid ≠ pid := fun h => hsid (h ▸ List.mem_cons_self _ _)
    rw [matchLoop, plannedMatches]
    split
    · rfl
    · have hcongr : ∀ (t : Trade) (plw pctw : ℚ) (R' : ℚ),
          plannedMatches price rest (sellWrite sid pid plw pctw (ts.set pid t)) R' =
            plannedMatches price rest ts R' := by
        intro t plw pctw R'
        exact plannedMatches_congr price rest ts _ R'
          (fun q hq => tradeAt_write_ne sid pid plw pctw ts t q
            (fun h => hsid' (h ▸ hq)) (fun h => hpid (h ▸ hq)))
      have hsellat : ∀ (t : Trade) (plw pctw : ℚ),
          tradeAt (sellWrite sid pid plw pctw (ts.set pid t)) sid =
            { tradeAt ts sid with profitLoss := some plw, profitLossPct := some pctw,
                                  matchedPosition := some pid } := by
        intro t plw pctw
        rw [sellWrite, tradeAt_set_ne _ _ _ _ hsidpid,
          tradeAt_set_self _ _ _ (by rw [List.length_set]; exact hlen)]
      split
      · rw [ih _ _ _ hnd' hsid'
            (by rw [sellWrite_length, List.length_set]; exact hlen),
          hcongr, hsellat]
        cases hms : (plannedMatches price rest ts (R - (tradeAt ts pid).quantity)).getLast? with
        | none =>
          have hempty := List.getLast?_eq_none_iff.mp hms
          rw [hempty, List.getLast?_singleton]
          rfl
        | some r =>
          have hne : plannedMatches price rest ts (R - (tradeAt ts pid).quantity) ≠ [] := by
            intro h
            rw [h] at hms
            simp at hms
          rw [getLast?_cons_of_ne_nil _ _ hne, hms]
          rfl
      · rw [ih _ _ _ hnd' hsid'
            (by rw [sellWrite_length, List.length_set]; exact hlen),
          hcongr, hsellat]
        cases hms : (plannedMatches price rest ts 0).getLast? with
        | none =>
          have hempty := List.getLast?_eq_none_iff.mp hms
          rw [hempty, List.getLast?_singleton]
          rfl
        | some r =>
          have hne : plannedMatches price rest ts 0 ≠ [] := by
            intro h
            rw [h] at hms
            simp at hms
          rw [getLast?_cons_of_ne_nil _ _ hne, hms]
          rfl

/-! ## Claim C10 -/

/-- Claim C10 (implicit): when the FIFO loop of `execute_sell` matches two
or more open lots, the sell trade record's `profit_loss` and
`profit_loss_pct` (and `matched_position`) hold only the values computed for
the last matched lot — each loop iteration overwrites them — while the
performance metric `total_profit_loss` is increased by the sum of the
per-lot realized P/Ls and `win_count`/`loss_count` are incremented once per
matched lot (a positive per-lot P/L counts as a win, any other as a loss),
not once per sell. -/
theorem c10_last_lot_overwrite (price : ℚ) (sid : ℕ) (ids : List ℕ) (ts : List Trade)
    (R : ℚ) (pf : Perf) (hnd : ids.Nodup) (hsid : sid ∉ ids) (hlen : sid < ts.length)
    (h2 : 2 ≤ (plannedMatches price ids ts R).length) :
    (tradeAt (matchLoop price sid ids ts R pf).1 sid).profitLoss
        = ((plannedMatches price ids ts R).getLast?).map MatchRec.pl ∧
    (tradeAt (matchLoop price sid ids ts R pf).1 sid).profitLossPct
        = ((plannedMatches price ids ts R).getLast?).map MatchRec.plPct ∧
    (tradeAt (matchLoop price sid ids ts R pf).1 sid).matchedPosition
        = ((plannedMatches price ids ts R).getLast?).map MatchRec.pid ∧
    (matchLoop price sid ids ts R pf).2.totalProfitLoss
        = pf.totalProfitLoss + ((plannedMatches price ids ts R).map MatchRec.pl).sum ∧
    (matchLoop price sid ids ts R pf).2.winCount
        = pf.winCount + (plannedMatches price ids ts R).countP (fun r => decide (0 < r.pl)) ∧
    (matchLoop price sid ids ts R pf).2.lossCount
        = pf.lossCount + (plannedMatches price ids ts R).countP (fun r => !decide (0 < r.pl)) := by
  obtain ⟨hT, hW, hL⟩ := matchLoop_perf price sid ids ts R pf hnd hsid
  have hS := matchLoop_sell price sid ids ts R pf hnd hsid hlen
  cases hms : (plannedMatches price ids ts R).getLast? with
  | none =>
    rw [List.getLast?_eq_none_iff.mp hms] at h2
    simp at h2
  | some r =>
    rw [hS, hms]
    exact ⟨rfl, rfl, rfl, hT, hW, hL⟩

/-- Witness for C10: two lots (qty 1 @100, qty 1 @200) matched by a sell of
quantity 2 at price 150: the sell record ends with the second lot's values
(P/L −50, −25%), total P/L grows by 50 + (−50) = 0, and one win plus one
loss is counted. -/
theorem c10_witness :
    (tradeAt (matchLoop 150 2 [0, 1] c10ts 2 (initState cfg0).perf).1 2).profitLoss
        = ((plannedMatches 150 [0, 1] c10ts 2).getLast?).map MatchRec.pl ∧
    (tradeAt (matchLoop 150 2 [0, 1] c10ts 2 (initState cfg0).perf).1 2).profitLossPct
        = ((plannedMatches 150 [0, 1] c10ts 2).getLast?).map MatchRec.plPct ∧
    (tradeAt (matchLoop 150 2 [0, 1] c10ts 2 (initState cfg0).perf).1 2).matchedPosition
        = ((plannedMatches 150 [0, 1] c10ts 2).getLast?).map MatchRec.pid ∧
    (matchLoop 150 2 [0, 1] c10ts 2 (initState cfg0).perf).2.totalProfitLoss
        = (initState cfg0).perf.totalProfitLoss
          + ((plannedMatches 150 [0, 1] c10ts 2).map MatchRec.pl).sum ∧
    (matchLoop 150 2 [0, 1] c10ts 2 (initState cfg0).perf).2.winCount
        = (initState cfg0).perf.winCount
          + (plannedMatches 150 [0, 1] c10ts 2).countP (fun r => decide (0 < r.pl)) ∧
    (matchLoop 150 2 [0, 1] c10ts 2 (initState cfg0).perf).2.lossCount
        = (initState cfg0).perf.lossCount
          + (plannedMatches 150 [0, 1] c10ts 2).countP (fun r => !decide (0 < r.pl)) :=
  c10_last_lot_overwrite 150 2 [0, 1] c10ts 2 (initState cfg0).perf
    (by decide) (by decide) (by decide) (by with_unfolding_all decide)

/-! ## Ledger-lookup lemmas -/

theorem hasCur_false_balOf (pf : List (String × Balance)) (c : String)
    (h : hasCur pf c = false) : balOf pf c = ⟨0, 0⟩ := by
  induction pf with
  | nil => rfl
  | cons hd tl ih =>
    obtain ⟨k, b⟩ := hd
    rw [hasCur] at h
    rw [balOf]
    by_cases hc : c = k
    · rw [if_pos hc] at h
      exact absurd h (by simp)
    · rw [if_neg hc] at h
      rw [if_neg hc]
      exact ih h

theorem balOf_update (c : String) (a : ℚ) (pf : List (String × Balance)) (c' : String) :
    balOf (updatePortfolioBalance c a pf) c' =
      if c' = c then ⟨(balOf pf c).amount + a, (balOf pf c).available + a⟩
      else balOf pf c' := by
  induction pf with
  | nil =>
    by_cases h : c' = c
    · subst h
      simp [updatePortfolioBalance, balOf]
    · simp [updatePortfolioBalance, balOf, h]
  | cons hd tl ih =>
    obtain ⟨k, b⟩ := hd
    rw [updatePortfolioBalance]
    by_cases hck : c = k
    · rw [if_pos hck, balOf]
      by_cases h' : c' = k
      · rw [if_pos h', if_pos (h'.trans hck.symm), balOf, if_pos hck]
      · rw [if_neg h', if_neg (fun h => h' (h.trans hck)), balOf, if_neg h']
    · rw [if_neg hck, balOf]
      by_cases h' : c' = k
      · rw [if_pos h', if_neg (fun h => hck (h.symm.trans h')), balOf, if_pos h']
      · rw [if_neg h', ih]
        by_cases hcc : c' = c
        · rw [if_pos hcc, if_pos hcc, balOf, if_neg hck]
        · rw [if_neg hcc, if_neg hcc, balOf, if_neg h']

theorem posOf_appendPos (s : String) (tid : ℕ) (ops : List (String × List ℕ))
    (s' : String) :
    posOf (appendPos s tid ops) s' =
      if s' = s then posOf ops s ++ [tid] else posOf ops s' := by
  induction ops with
  | nil =>
    by_cases h : s' = s
    · subst h
      simp [appendPos, posOf]
    · simp [appendPos, posOf, h]
  | cons hd tl ih =>
    obtain ⟨k, l⟩ := hd
    rw [appendPos]
    by_cases hsk : s = k
    · rw [if_pos hsk, posOf]
      by_cases h' : s' = k
      · rw [if_pos h', if_pos (h'.trans hsk.symm), posOf, if_pos hsk]
      · rw [if_neg h', if_neg (fun h => h' (h.trans hsk)), posOf, if_neg h']
    · rw [if_neg hsk, posOf]
      by_cases h' : s' = k
      · rw [if_pos h', if_neg (fun h => hsk (h.symm.trans h')), posOf, if_pos h']
      · rw [if_neg h', ih]
        by_cases hss : s' = s
        · rw [if_pos hss, if_pos hss, posOf, if_neg hsk]
        · rw [if_neg hss, if_neg hss, posOf, if_neg h']

/-! ## Buy-path characterization and round-trip helpers -/

theorem executeBuy_success (cfg : SimConfig) (oracle : String → Option ℚ)
    (s : String) (a p : ℚ) (σ : SimState)
    (h : ¬ a > (balOf σ.portfolio cfg.quoteCurrency).available) :
    executeBuy cfg oracle s a (some p) σ =
      (.success σ.trades.length,
       updatePerformanceMetrics cfg oracle
         { portfolio := updatePortfolioBalance (baseCurrency cfg s) (calculateQuantity a p)
             (updatePortfolioBalance cfg.quoteCurrency (-a) σ.portfolio),
           trades := σ.trades ++ [buyRec s p a],
           openPositions := appendPos s σ.trades.length σ.openPositions,
           perf := σ.perf }) := by
  rw [executeBuy, if_neg h]
  rfl

theorem tradeAt_eq_getElem (ts : List Trade) (i : ℕ) (h : i < ts.length) :
    tradeAt ts i = ts[i] :=
  List.getD_eq_getElem ts default h

theorem sum_map_mul_right (l : List ℚ) (r : ℚ) :
    (l.map (fun a => a * r)).sum = l.sum * r := by
  induction l with
  | nil => simp
  | cons a t ih => simp [ih, add_mul]

theorem plannedMatches_pl_zero (p : ℚ) (ids : List ℕ) :
    ∀ (ts : List Trade) (R : ℚ), (∀ q ∈ ids, (tradeAt ts q).price = p) →
      ∀ r ∈ plannedMatches p ids ts R, r.pl = 0 := by
  induction ids with
  | nil =>
    intro ts R _ r hr
    simp [plannedMatches] at hr
  | cons pid rest ih =>
    intro ts R hprice r hr
    have hp0 : (tradeAt ts pid).price = p := hprice pid (List.mem_cons_self _ _)
    rw [plannedMatches] at hr
    split at hr
    · simp at hr
    · split at hr <;>
      · rcases List.mem_cons.mp hr with hr0 | hrrest
        · rw [hr0]
          simp [hp0]
        · exact ih ts _ (fun q hq => hprice q (List.mem_cons_of_mem _ hq)) r hrrest

theorem plannedMatches_ne_nil (p : ℚ) (pid : ℕ) (rest : List ℕ) (ts : List Trade)
    (R : ℚ) (hR : 0 < R) :
    plannedMatches p (pid :: rest) ts R ≠ [] := by
  rw [plannedMatches, if_neg (not_le.mpr hR)]
  split <;> exact List.cons_ne_nil _ _

theorem map_fee_amount_eq (ts ts' : List Trade) (hlen : ts'.length = ts.length)
    (h : ∀ j, staticOf (tradeAt ts' j) = staticOf (tradeAt ts j)) :
    ts'.map Trade.fee = ts.map Trade.fee ∧ ts'.map Trade.amount = ts.map Trade.amount := by
  constructor
  · apply List.ext_getElem (by simpa using hlen)
    intro i h1 h2
    have hi' : i < ts'.length := by simpa using h1
    have hi : i < ts.length := by simpa using h2
    rw [List.getElem_map, List.getElem_map]
    have := h i
    rw [tradeAt_eq_getElem _ _ hi', tradeAt_eq_getElem _ _ hi] at this
    exact congrArg (fun x => x.2.2.2.2) this
  · apply List.ext_getElem (by simpa using hlen)
    intro i h1 h2
    have hi' : i < ts'.length := by simpa using h1
    have hi : i < ts.length := by simpa using h2
    rw [List.getElem_map, List.getElem_map]
    have := h i
    rw [tradeAt_eq_getElem _ _ hi', tradeAt_eq_getElem _ _ hi] at this
    exact congrArg (fun x => x.2.2.2.1) this

theorem runOps_cons (cfg : SimConfig) (oracle : String → Option ℚ) (op : SimOp)
    (ops : List SimOp) (σ : SimState) :
    runOps cfg oracle (op :: ops) σ = runOps cfg oracle ops (stepOp cfg oracle σ op) :=
  rfl

/-- State after a sequence of successful buys of one symbol at a fixed
price: the trade history grows by one buy record per amount, the quote
available balance drops by the total spent, the base available balance grows
by the total truncated quantity, and the symbol's open-position list gains
the new trade indices in order. -/
theorem afterBuys (cfg : SimConfig) (oracle : String → Option ℚ) (s : String) (p : ℚ)
    (hbq : baseCurrency cfg s ≠ cfg.quoteCurrency) (l : List ℚ) :
    ∀ σ : SimState, (∀ a ∈ l, 0 < a) →
      l.sum ≤ (balOf σ.portfolio cfg.quoteCurrency).available →
      (runOps cfg oracle (l.map (fun a => SimOp.buy s a (some p))) σ).trades
          = σ.trades ++ l.map (buyRec s p) ∧
      (balOf (runOps cfg oracle (l.map (fun a => SimOp.buy s a (some p))) σ).portfolio
          cfg.quoteCurrency).available
          = (balOf σ.portfolio cfg.quoteCurrency).available - l.sum ∧
      (balOf (runOps cfg oracle (l.map (fun a => SimOp.buy s a (some p))) σ).portfolio
          (baseCurrency cfg s)).available
          = (balOf σ.portfolio (baseCurrency cfg s)).available
            + (l.map (fun a => calculateQuantity a p)).sum ∧
      posOf (runOps cfg oracle (l.map (fun a => SimOp.buy s a (some p))) σ).openPositions s
          = posOf σ.openPositions s ++ List.range' σ.trades.length l.length := by
  induction l with
  | nil =>
    intro σ _ _
    refine ⟨by simp [runOps], by simp [runOps], by simp [runOps], by simp [runOps]⟩
  | cons a rest ih =>
    intro σ hpos hcap
    rw [List.sum_cons] at hcap
    have hrestpos : ∀ x ∈ rest, 0 < x := fun x hx => hpos x (List.mem_cons_of_mem _ hx)
    have hrestnn : 0 ≤ rest.sum := List.sum_nonneg (fun x hx => le_of_lt (hrestpos x hx))
    have ha : ¬ a > (balOf σ.portfolio cfg.quoteCurrency).available :=
      not_lt.mpr (by linarith)
    have hstep : stepOp cfg oracle σ (SimOp.buy s a (some p)) =
        updatePerformanceMetrics cfg oracle
          { portfolio := updatePortfolioBalance (baseCurrency cfg s) (calculateQuantity a p)
              (updatePortfolioBalance cfg.quoteCurrency (-a) σ.portfolio),
            trades := σ.trades ++ [buyRec s p a],
            openPositions := appendPos s σ.trades.length σ.openPositions,
            perf := σ.perf } := by
      show (executeBuy cfg oracle s a (some p) σ).2 = _
      rw [executeBuy_success cfg oracle s a p σ ha]
    have hq' : (balOf (stepOp cfg oracle σ (SimOp.buy s a (some p))).portfolio
        cfg.quoteCurrency).available
        = (balOf σ.portfolio cfg.quoteCurrency).available - a := by
      rw [hstep, upm_portfolio]
      show (balOf (updatePortfolioBalance (baseCurrency cfg s) (calculateQuantity a p)
        (updatePortfolioBalance cfg.quoteCurrency (-a) σ.portfolio)) cfg.quoteCurrency).available = _
      rw [balOf_update, if_neg (fun h => hbq h.symm), balOf_update, if_pos rfl]
      show (balOf σ.portfolio cfg.quoteCurrency).available + (-a) = _
      ring
    have hb' : (balOf (stepOp cfg oracle σ (SimOp.buy s a (some p))).portfolio
        (baseCurrency cfg s)).available
        = (balOf σ.portfolio (baseCurrency cfg s)).available + calculateQuantity a p := by
      rw [hstep, upm_portfolio]
      show (balOf (updatePortfolioBalance (baseCurrency cfg s) (calculateQuantity a p)
        (updatePortfolioBalance cfg.quoteCurrency (-a) σ.portfolio)) (baseCurrency cfg s)).available = _
      rw [balOf_update, if_pos rfl]
      show (balOf (updatePortfolioBalance cfg.quoteCurrency (-a) σ.portfolio)
        (baseCurrency cfg s)).available + calculateQuantity a p = _
      rw [balOf_update, if_neg hbq]
    obtain ⟨h1, h2, h3, h4⟩ := ih (stepOp cfg oracle σ (SimOp.buy s a (some p))) hrestpos
      (by rw [hq']; linarith)
    rw [List.map_cons, runOps_cons]
    refine ⟨?_, ?_, ?_, ?_⟩
    · rw [h1, hstep, upm_trades]
      show σ.trades ++ [buyRec s p a] ++ rest.map (buyRec s p) = _
      rw [List.append_assoc, List.singleton_append, ← List.map_cons]
    · rw [h2, hq', List.sum_cons]
      ring
    · rw [h3, hb', List.map_cons, List.sum_cons]
      ring
    · rw [h4, hstep, upm_open, upm_trades, posOf_appendPos, if_pos rfl]
      have hlen : (σ.trades ++ [buyRec s p a]).length = σ.trades.length + 1 := by simp
      rw [hlen, List.append_assoc, List.singleton_append]
      show _ = posOf σ.openPositions s ++ List.range' σ.trades.length (rest.length + 1)
      rw [List.range'_succ]

theorem sellSettle_match (cfg : SimConfig) (oracle : String → Option ℚ)
    (s b : String) (q pr : ℚ) (σ : SimState)
    (hids : posOf σ.openPositions s ≠ []) :
    sellSettle cfg oracle s b q pr σ =
      (.success σ.trades.length,
       updatePerformanceMetrics cfg oracle
         { portfolio := updatePortfolioBalance cfg.quoteCurrency (q * pr - q * pr * feeRate)
             (updatePortfolioBalance b (-q) σ.portfolio),
           trades := (matchLoop pr σ.trades.length (posOf σ.openPositions s)
             (σ.trades ++ [sellRec s pr q]) q σ.perf).1,
           openPositions := setPos s ((posOf σ.openPositions s).filter
             (fun pid => (tradeAt (matchLoop pr σ.trades.length (posOf σ.openPositions s)
               (σ.trades ++ [sellRec s pr q]) q σ.perf).1 pid).isOpen)) σ.openPositions,
           perf := (matchLoop pr σ.trades.length (posOf σ.openPositions s)
             (σ.trades ++ [sellRec s pr q]) q σ.perf).2 }) := by
  simp only [sellSettle]
  rw [if_neg hids]
  rfl

theorem plannedMatches_ne_nil' (p : ℚ) (ids : List ℕ) (ts : List Trade) (R : ℚ)
    (hids : ids ≠ []) (hR : 0 < R) : plannedMatches p ids ts R ≠ [] := by
  cases ids with
  | nil => exact absurd rfl hids
  | cons pid rest => exact plannedMatches_ne_nil p pid rest ts R hR

/-! ## Claim C5 -/

/-- Claim C5: for every nonempty sequence of successful buys on one symbol
at a fixed price `p`, followed by one `execute_sell` of the full bought
quantity `Q` at the same price: the sell succeeds, every trade record
carries a fee of `feeRate` times its own notional amount — the buy-side
records carry `aᵢ·feeRate` against notional `aᵢ` and the single sell-side
record carries `(Q·p)·feeRate` against notional `Q·p`, so the fee is charged
once per side at `feeRate × notional` — the sell's realized `profit_loss`
is 0, and the total realized P/L recorded across the whole history is 0. -/
theorem c5_round_trip (cfg : SimConfig) (oracle : String → Option ℚ) (s : String)
    (p : ℚ) (l : List ℚ) (Q : ℚ) (σB : SimState) (r : TradeResult × SimState)
    (hbq : baseCurrency cfg s ≠ cfg.quoteCurrency)
    (hl : l ≠ [])
    (hpos : ∀ a ∈ l, 0 < a)
    (hcap : l.sum ≤ cfg.startingCapital)
    (hQdef : Q = (l.map (fun a => calculateQuantity a p)).sum)
    (hQ : 0 < Q)
    (hσB : σB = runOps cfg oracle (l.map (fun a => SimOp.buy s a (some p))) (initState cfg))
    (hr : r = executeSell cfg oracle s (some Q) none (some p) σB) :
    r.1 = .success l.length ∧
    r.2.trades.map Trade.fee = l.map (fun a => a * feeRate) ++ [Q * p * feeRate] ∧
    r.2.trades.map Trade.amount = l ++ [Q * p] ∧
    (tradeAt r.2.trades l.length).profitLoss = some 0 ∧
    (r.2.trades.map (fun t => t.profitLoss.getD 0)).sum = 0 := by
  have hinitq : (balOf (initState cfg).portfolio cfg.quoteCurrency).available
      = cfg.startingCapital := by
    simp [initState, balOf]
  obtain ⟨hT, hQuo, hBase, hPos⟩ := afterBuys cfg oracle s p hbq l (initState cfg) hpos
    (by rw [hinitq]; exact hcap)
  rw [← hσB] at hT hQuo hBase hPos
  have hn : 0 < l.length := List.length_pos.mpr hl
  have hT' : σB.trades = l.map (buyRec s p) := by
    rw [hT]
    simp [initState]
  have hPos' : posOf σB.openPositions s = List.range' 0 l.length := by
    rw [hPos]
    simp [initState, posOf]
  have hBase' : (balOf σB.portfolio (baseCurrency cfg s)).available = Q := by
    rw [hBase, hQdef]
    simp [initState, balOf, hbq]
  have hlen : σB.trades.length = l.length := by
    rw [hT']
    simp
  have hguard : ¬ (hasCur σB.portfolio (baseCurrency cfg s) = false
      ∨ (balOf σB.portfolio (baseCurrency cfg s)).available ≤ 0) := by
    rintro (hfc | hle)
    · have h0 := hasCur_false_balOf _ _ hfc
      rw [h0] at hBase'
      exact absurd ((hBase' : (0 : ℚ) = Q).symm) (ne_of_gt hQ)
    · rw [hBase'] at hle
      linarith
  have hsell : executeSell cfg oracle s (some Q) none (some p) σB
      = sellSettle cfg oracle s (baseCurrency cfg s) Q p σB := by
    rw [executeSell, if_neg hguard]
    show (if Q > (balOf σB.portfolio (baseCurrency cfg s)).available
        then (TradeResult.error SimError.insufficientBaseBalance, σB)
        else sellSettle cfg oracle s (baseCurrency cfg s) Q p σB) = _
    rw [hBase', if_neg (lt_irrefl Q)]
  have hidsne : List.range' 0 l.length ≠ [] := by
    intro h
    have hh : (List.range' 0 l.length).length = 0 := by
      rw [h]
      rfl
    rw [List.length_range'] at hh
    omega
  rw [hr, hsell, sellSettle_match cfg oracle s (baseCurrency cfg s) Q p σB
    (by rw [hPos']; exact hidsne)]
  rw [hlen, hT', hPos']
  have hTS1len : (l.map (buyRec s p) ++ [sellRec s p Q]).length = l.length + 1 := by
    simp
  have hMlen : (matchLoop p l.length (List.range' 0 l.length)
      (l.map (buyRec s p) ++ [sellRec s p Q]) Q σB.perf).1.length = l.length + 1 := by
    rw [matchLoop_length, hTS1len]
  have hnodup : (List.range' 0 l.length).Nodup := List.nodup_range' 0 l.length
  have hnotmem : l.length ∉ List.range' 0 l.length := by
    intro h
    have := (List.mem_range'_1.mp h).2
    omega
  have hsidlt : l.length < (l.map (buyRec s p) ++ [sellRec s p Q]).length := by
    rw [hTS1len]
    omega
  have hprices : ∀ q ∈ List.range' 0 l.length,
      (tradeAt (l.map (buyRec s p) ++ [sellRec s p Q]) q).price = p := by
    intro q hq
    have hqlt : q < (l.map (buyRec s p)).length := by
      have := (List.mem_range'_1.mp hq).2
      simp
      omega
    rw [tradeAt_append_lt _ _ _ hqlt, tradeAt_eq_getElem _ _ hqlt, List.getElem_map]
    rfl
  have hms_ne := plannedMatches_ne_nil' p (List.range' 0 l.length)
    (l.map (buyRec s p) ++ [sellRec s p Q]) Q hidsne hQ
  have hsellpl : (tradeAt (matchLoop p l.length (List.range' 0 l.length)
      (l.map (buyRec s p) ++ [sellRec s p Q]) Q σB.perf).1 l.length).profitLoss
      = some 0 := by
    have hrec := matchLoop_sell p l.length (List.range' 0 l.length)
      (l.map (buyRec s p) ++ [sellRec s p Q]) Q σB.perf hnodup hnotmem hsidlt
    cases hms : (plannedMatches p (List.range' 0 l.length)
        (l.map (buyRec s p) ++ [sellRec s p Q]) Q).getLast? with
    | none => exact absurd (List.getLast?_eq_none_iff.mp hms) hms_ne
    | some rr =>
      rw [hms] at hrec
      have hrr0 : rr.pl = 0 := plannedMatches_pl_zero p (List.range' 0 l.length)
        (l.map (buyRec s p) ++ [sellRec s p Q]) Q hprices rr (List.mem_of_mem_getLast? hms)
      rw [hrec]
      show some rr.pl = some 0
      rw [hrr0]
  have hbuypl : ∀ i, i < l.length →
      (tradeAt (matchLoop p l.length (List.range' 0 l.length)
        (l.map (buyRec s p) ++ [sellRec s p Q]) Q σB.perf).1 i).profitLoss = none := by
    intro i hi
    have hplof := matchLoop_plOf p l.length (List.range' 0 l.length)
      (l.map (buyRec s p) ++ [sellRec s p Q]) Q σB.perf i (Nat.ne_of_lt hi)
    have h1 : (tradeAt (matchLoop p l.length (List.range' 0 l.length)
        (l.map (buyRec s p) ++ [sellRec s p Q]) Q σB.perf).1 i).profitLoss
        = (tradeAt (l.map (buyRec s p) ++ [sellRec s p Q]) i).profitLoss :=
      congrArg (fun x => x.1) hplof
    rw [h1]
    have hil : i < (l.map (buyRec s p)).length := by
      simp
      omega
    rw [tradeAt_append_lt _ _ _ hil, tradeAt_eq_getElem _ _ hil, List.getElem_map]
    rfl
  obtain ⟨hfee, hamt⟩ := map_fee_amount_eq (l.map (buyRec s p) ++ [sellRec s p Q])
    (matchLoop p l.length (List.range' 0 l.length)
      (l.map (buyRec s p) ++ [sellRec s p Q]) Q σB.perf).1
    (by rw [hMlen, hTS1len])
    (matchLoop_staticOf p l.length (List.range' 0 l.length)
      (l.map (buyRec s p) ++ [sellRec s p Q]) Q σB.perf)
  refine ⟨rfl, ?_, ?_, ?_, ?_⟩
  · show (matchLoop p l.length (List.range' 0 l.length)
        (l.map (buyRec s p) ++ [sellRec s p Q]) Q σB.perf).1.map Trade.fee = _
    rw [hfee, List.map_append, List.map_map]
    rfl
  · show (matchLoop p l.length (List.range' 0 l.length)
        (l.map (buyRec s p) ++ [sellRec s p Q]) Q σB.perf).1.map Trade.amount = _
    rw [hamt, List.map_append, List.map_map]
    have hcomp : (Trade.amount ∘ buyRec s p) = fun a => a := rfl
    rw [hcomp, List.map_id']
    rfl
  · exact hsellpl
  · show ((matchLoop p l.length (List.range' 0 l.length)
        (l.map (buyRec s p) ++ [sellRec s p Q]) Q σB.perf).1.map
        (fun t => t.profitLoss.getD 0)).sum = 0
    apply List.sum_eq_zero
    intro x hx
    obtain ⟨t, ht, hxt⟩ := List.mem_map.mp hx
    obtain ⟨i, hi, hti⟩ := List.mem_iff_getElem.mp ht
    rw [hMlen] at hi
    rcases Nat.lt_succ_iff_lt_or_eq.mp hi with hilt | hieq
    · have := hbuypl i hilt
      rw [tradeAt_eq_getElem _ _ (by rw [hMlen]; omega), hti] at this
      rw [← hxt, this]
      rfl
    · subst hieq
      rw [tradeAt_eq_getElem _ _ (by rw [hMlen]; omega), hti] at hsellpl
      rw [← hxt, hsellpl]
      rfl

/-- Witness for C5: one buy of 1,000 USDT at 50,000 (quantity 0.02) followed
by a sell of the full 0.02 at 50,000. -/
theorem c5_witness :
    (executeSell cfg0 orc0 "BTCUSDT" (some (1/50)) none (some 50000)
        (runOps cfg0 orc0 ([1000].map (fun a => SimOp.buy "BTCUSDT" a (some 50000)))
          (initState cfg0))).1 = .success ([(1000 : ℚ)].length) ∧
    (executeSell cfg0 orc0 "BTCUSDT" (some (1/50)) none (some 50000)
        (runOps cfg0 orc0 ([1000].map (fun a => SimOp.buy "BTCUSDT" a (some 50000)))
          (initState cfg0))).2.trades.map Trade.fee
      = [(1000 : ℚ)].map (fun a => a * feeRate) ++ [1/50 * 50000 * feeRate] ∧
    (executeSell cfg0 orc0 "BTCUSDT" (some (1/50)) none (some 50000)
        (runOps cfg0 orc0 ([1000].map (fun a => SimOp.buy "BTCUSDT" a (some 50000)))
          (initState cfg0))).2.trades.map Trade.amount
      = [(1000 : ℚ)] ++ [1/50 * 50000] ∧
    (tradeAt (executeSell cfg0 orc0 "BTCUSDT" (some (1/50)) none (some 50000)
        (runOps cfg0 orc0 ([1000].map (fun a => SimOp.buy "BTCUSDT" a (some 50000)))
          (initState cfg0))).2.trades ([(1000 : ℚ)].length)).profitLoss = some 0 ∧
    ((executeSell cfg0 orc0 "BTCUSDT" (some (1/50)) none (some 50000)
        (runOps cfg0 orc0 ([1000].map (fun a => SimOp.buy "BTCUSDT" a (some 50000)))
          (initState cfg0))).2.trades.map (fun t => t.profitLoss.getD 0)).sum = 0 :=
  c5_round_trip cfg0 orc0 "BTCUSDT" 50000 [1000] (1/50)
    (runOps cfg0 orc0 ([1000].map (fun a => SimOp.buy "BTCUSDT" a (some 50000)))
      (initState cfg0))
    (executeSell cfg0 orc0 "BTCUSDT" (some (1/50)) none (some 50000)
      (runOps cfg0 orc0 ([1000].map (fun a => SimOp.buy "BTCUSDT" a (some 50000)))
        (initState cfg0)))
    (by with_unfolding_all decide)
    (by decide)
    (by decide)
    (by norm_num [cfg0])
    (by norm_num [calculateQuantity, quantize8, truncTowardZero, feeRate])
    (by norm_num)
    rfl
    rfl

/-! ## Claim C1: ledger-invariant machinery -/

theorem quantize8_nonneg (q : ℚ) (h : 0 ≤ q) : 0 ≤ quantize8 q := by
  rw [quantize8, truncTowardZero, if_pos (by positivity : (0:ℚ) ≤ q * 100000000)]
  positivity

theorem calculateQuantity_nonneg (a p : ℚ) (ha : 0 ≤ a) (hp : 0 < p) :
    0 ≤ calculateQuantity a p :=
  quantize8_nonneg _ (div_nonneg ha (le_of_lt hp))

theorem sellSettle_portfolio (cfg : SimConfig) (oracle : String → Option ℚ)
    (s b : String) (q pr : ℚ) (σ : SimState) :
    (sellSettle cfg oracle s b q pr σ).2.portfolio =
      updatePortfolioBalance cfg.quoteCurrency (q * pr - q * pr * feeRate)
        (updatePortfolioBalance b (-q) σ.portfolio) :=
  rfl

theorem executeBuy_portfolio (cfg : SimConfig) (oracle : String → Option ℚ)
    (s : String) (a : ℚ) (p? : Option ℚ) (σ : SimState) :
    (executeBuy cfg oracle s a p? σ).2.portfolio = σ.portfolio ∨
    ∃ p, resolvePrice oracle s p? = some p ∧
      a ≤ (balOf σ.portfolio cfg.quoteCurrency).available ∧
      (executeBuy cfg oracle s a p? σ).2.portfolio
        = updatePortfolioBalance (baseCurrency cfg s) (calculateQuantity a p)
            (updatePortfolioBalance cfg.quoteCurrency (-a) σ.portfolio) := by
  rw [executeBuy]
  split
  · left
    rfl
  · rename_i h
    split
    · left
      rfl
    · rename_i p hp
      right
      exact ⟨p, hp, not_lt.mp h, rfl⟩

theorem executeSell_portfolio (cfg : SimConfig) (oracle : String → Option ℚ)
    (s : String) (q? a? p? : Option ℚ) (σ : SimState) :
    (executeSell cfg oracle s q? a? p? σ).2.portfolio = σ.portfolio ∨
    ∃ qv pv, resolvePrice oracle s p? = some pv ∧
      0 < (balOf σ.portfolio (baseCurrency cfg s)).available ∧
      qv ≤ (balOf σ.portfolio (baseCurrency cfg s)).available ∧
      (q? = some qv ∨ qv = (balOf σ.portfolio (baseCurrency cfg s)).available ∨
        ∃ av, a? = some av ∧ qv = av / pv) ∧
      (executeSell cfg oracle s q? a? p? σ).2.portfolio
        = updatePortfolioBalance cfg.quoteCurrency (qv * pv - qv * pv * feeRate)
            (updatePortfolioBalance (baseCurrency cfg s) (-qv) σ.portfolio) := by
  rw [executeSell]
  split
  · left
    rfl
  · rename_i hguard
    have havail : 0 < (balOf σ.portfolio (baseCurrency cfg s)).available := by
      rcases not_or.mp hguard with ⟨_, h2⟩
      exact not_le.mp h2
    split
    · left
      rfl
    · rename_i pv hpv
      split
      · rename_i qv
        split
        · left
          rfl
        · rename_i hqa
          right
          exact ⟨qv, pv, hpv, havail, not_lt.mp hqa, Or.inl rfl, rfl⟩
      · split
        · right
          exact ⟨(balOf σ.portfolio (baseCurrency cfg s)).available, pv, hpv, havail,
            le_refl _, Or.inr (Or.inl rfl), rfl⟩
        · rename_i av
          split
          · right
            exact ⟨(balOf σ.portfolio (baseCurrency cfg s)).available, pv, hpv, havail,
              le_refl _, Or.inr (Or.inl rfl), rfl⟩
          · rename_i hqa
            right
            exact ⟨av / pv, pv, hpv, havail, not_lt.mp hqa,
              Or.inr (Or.inr ⟨av, rfl, rfl⟩), rfl⟩

theorem resolvePrice_pos (oracle : String → Option ℚ)
    (horacle : ∀ s x, oracle s = some x → 0 < x) (s : String) (p? : Option ℚ)
    (hp : (match p? with | none => true | some x => decide (0 < x)) = true)
    (pv : ℚ) (h : resolvePrice oracle s p? = some pv) : 0 < pv := by
  cases p? with
  | none => exact horacle s pv h
  | some x =>
    simp only [resolvePrice, Option.some.injEq] at h
    subst h
    exact of_decide_eq_true hp

theorem stepOp_preserves (cfg : SimConfig) (oracle : String → Option ℚ)
    (horacle : ∀ s x, oracle s = some x → 0 < x) (σ : SimState) (op : SimOp)
    (hop : op.wfb = true)
    (hinv : ∀ c, 0 ≤ (balOf σ.portfolio c).available) :
    ∀ c, 0 ≤ (balOf (stepOp cfg oracle σ op).portfolio c).available := by
  cases op with
  | buy s a p? =>
    simp only [SimOp.wfb, Bool.and_eq_true] at hop
    obtain ⟨ha0b, hpb⟩ := hop
    have ha0 : 0 ≤ a := of_decide_eq_true ha0b
    intro c
    simp only [stepOp]
    rcases executeBuy_portfolio cfg oracle s a p? σ with heq | ⟨p, hp, hle, heq⟩
    · rw [heq]
      exact hinv c
    · have hppos : 0 < p := resolvePrice_pos oracle horacle s p? hpb p hp
      have hq0 : 0 ≤ calculateQuantity a p := calculateQuantity_nonneg a p ha0 hppos
      rw [heq, balOf_update]
      by_cases hcb : c = baseCurrency cfg s
      · rw [if_pos hcb]
        show 0 ≤ (balOf (updatePortfolioBalance cfg.quoteCurrency (-a) σ.portfolio)
          (baseCurrency cfg s)).available + calculateQuantity a p
        have hrest : 0 ≤ (balOf (updatePortfolioBalance cfg.quoteCurrency (-a) σ.portfolio)
            (baseCurrency cfg s)).available := by
          rw [balOf_update]
          by_cases hbq : baseCurrency cfg s = cfg.quoteCurrency
          · rw [if_pos hbq]
            show 0 ≤ (balOf σ.portfolio cfg.quoteCurrency).available + -a
            linarith
          · rw [if_neg hbq]
            exact hinv _
        linarith
      · rw [if_neg hcb, balOf_update]
        by_cases hcq : c = cfg.quoteCurrency
        · rw [if_pos hcq]
          show 0 ≤ (balOf σ.portfolio cfg.quoteCurrency).available + -a
          linarith
        · rw [if_neg hcq]
          exact hinv c
  | sell s q? a? p? =>
    simp only [SimOp.wfb, Bool.and_eq_true] at hop
    obtain ⟨⟨hqwf, hawf⟩, hpwf⟩ := hop
    intro c
    simp only [stepOp]
    rcases executeSell_portfolio cfg oracle s q? a? p? σ with
      heq | ⟨qv, pv, hpv, hpos, hle, horg, heq⟩
    · rw [heq]
      exact hinv c
    · have hpvpos : 0 < pv := resolvePrice_pos oracle horacle s p? hpwf pv hpv
      have hqv0 : 0 ≤ qv := by
        rcases horg with hq | hq | ⟨av, ha, hq⟩
        · rw [hq] at hqwf
          exact of_decide_eq_true hqwf
        · rw [hq]
          exact le_of_lt hpos
        · rw [ha] at hawf
          rw [hq]
          exact div_nonneg (of_decide_eq_true hawf) (le_of_lt hpvpos)
      have hfee : 0 ≤ qv * pv - qv * pv * feeRate := by
        have h1 : 0 ≤ qv * pv := mul_nonneg hqv0 (le_of_lt hpvpos)
        have h2 : feeRate = 1 / 1000 := rfl
        rw [h2]
        linarith
      rw [heq, balOf_update]
      by_cases hcq : c = cfg.quoteCurrency
      · rw [if_pos hcq]
        show 0 ≤ (balOf (updatePortfolioBalance (baseCurrency cfg s) (-qv) σ.portfolio)
          cfg.quoteCurrency).available + (qv * pv - qv * pv * feeRate)
        have hrest : 0 ≤ (balOf (updatePortfolioBalance (baseCurrency cfg s) (-qv) σ.portfolio)
            cfg.quoteCurrency).available := by
          rw [balOf_update]
          by_cases hqb : cfg.quoteCurrency = baseCurrency cfg s
          · rw [if_pos hqb]
            show 0 ≤ (balOf σ.portfolio (baseCurrency cfg s)).available + -qv
            linarith
          · rw [if_neg hqb]
            exact hinv _
        linarith
      · rw [if_neg hcq, balOf_update]
        by_cases hcb : c = baseCurrency cfg s
        · rw [if_pos hcb]
          show 0 ≤ (balOf σ.portfolio (baseCurrency cfg s)).available + -qv
          linarith
        · rw [if_neg hcb]
          exact hinv c

/-- Claim C1, counterexample: the ledger invariant fails and over-withdrawal
is not always rejected. A buy with a negative amount passes the balance
check (`amount > available` is false), returns success, and drives the base
currency's available balance to `-0.0001 < 0`; and an amount-path sell
requesting more notional than the position holds (2,000 USDT against 0.02
BTC at 50,000) is silently clamped to the available quantity and returns
success with the base balance drained to zero, instead of an
insufficient-balance error. -/
theorem c1_counterexample :
    (executeBuy cfg0 orc0 "BTCUSDT" (-5) (some 50000) (initState cfg0)).1
        = .success 0 ∧
    (balOf (executeBuy cfg0 orc0 "BTCUSDT" (-5) (some 50000)
        (initState cfg0)).2.portfolio "BTC").available = -1/10000 ∧
    ¬(0 : ℚ) ≤ -1/10000 ∧
    (executeSell cfg0 orc0 "BTCUSDT" none (some 2000) (some 50000) c4buy.2).1
        = .success 1 ∧
    (balOf (executeSell cfg0 orc0 "BTCUSDT" none (some 2000) (some 50000)
        c4buy.2).2.portfolio "BTC").available = 0 := by
  refine ⟨?_, ?_, by norm_num, ?_, ?_⟩ <;>
    norm_num [c4buy, executeSell, executeBuy, sellSettle, matchLoop, sellWrite, matchPerf,
      initState, cfg0, orc0, balOf, hasCur, updatePortfolioBalance, calculateQuantity,
      quantize8, truncTowardZero, feeRate, resolvePrice, appendPos, setPos, posOf,
      upm_portfolio, upm_trades, upm_open, tradeAt, baseCurrency_btcusdt, btc_ne_usdt,
      usdt_ne_btc, List.getD_cons_zero, List.getD_cons_succ, List.getD_nil]

/-- Claim C1, amended: under well-formed inputs (nonnegative amounts and
quantities, positive prices, a price oracle returning only positive prices,
nonnegative starting capital) every currency's available balance stays
nonnegative across every sequence of `execute_buy`/`execute_sell` calls from
the initial state; a buy whose amount exceeds the available quote balance is
rejected with the insufficient-quote error and no mutation; a quantity-path
sell exceeding the available base balance is rejected with the
insufficient-base error and no mutation; but an amount-path sell whose
implied quantity exceeds the available base balance is NOT rejected — it is
clamped to the full available quantity and succeeds, draining the base
balance to exactly zero. -/
theorem c1_amended (cfg : SimConfig) (oracle : String → Option ℚ)
    (horacle : ∀ s x, oracle s = some x → 0 < x)
    (hC : 0 ≤ cfg.startingCapital) :
    (∀ (ops : List SimOp), (∀ op ∈ ops, op.wfb = true) →
      ∀ c, 0 ≤ (balOf (runOps cfg oracle ops (initState cfg)).portfolio c).available) ∧
    (∀ (σ : SimState) (s : String) (a : ℚ) (p? : Option ℚ),
      (balOf σ.portfolio cfg.quoteCurrency).available < a →
      executeBuy cfg oracle s a p? σ = (.error .insufficientQuoteBalance, σ)) ∧
    (∀ (σ : SimState) (s : String) (q p : ℚ),
      0 < (balOf σ.portfolio (baseCurrency cfg s)).available →
      (balOf σ.portfolio (baseCurrency cfg s)).available < q →
      executeSell cfg oracle s (some q) none (some p) σ
        = (.error .insufficientBaseBalance, σ)) ∧
    (∀ (σ : SimState) (s : String) (a p : ℚ),
      baseCurrency cfg s ≠ cfg.quoteCurrency →
      0 < (balOf σ.portfolio (baseCurrency cfg s)).available →
      (balOf σ.portfolio (baseCurrency cfg s)).available < a / p →
      (executeSell cfg oracle s none (some a) (some p) σ).1
          = .success σ.trades.length ∧
      (balOf (executeSell cfg oracle s none (some a) (some p) σ).2.portfolio
          (baseCurrency cfg s)).available = 0) := by
  refine ⟨?_, ?_, ?_, ?_⟩
  · intro ops hops
    suffices h : ∀ (l : List SimOp) (σ : SimState), (∀ op ∈ l, op.wfb = true) →
        (∀ c, 0 ≤ (balOf σ.portfolio c).available) →
        ∀ c, 0 ≤ (balOf (runOps cfg oracle l σ).portfolio c).available by
      refine h ops (initState cfg) hops ?_
      intro c
      by_cases hc : c = cfg.quoteCurrency
      · subst hc
        simpa [initState, balOf] using hC
      · simp [initState, balOf, hc]
    intro l
    induction l with
    | nil =>
      intro σ _ hinv
      exact hinv
    | cons op rest ih =>
      intro σ hwf hinv
      rw [runOps_cons]
      exact ih _ (fun o ho => hwf o (List.mem_cons_of_mem _ ho))
        (stepOp_preserves cfg oracle horacle σ op (hwf op (List.mem_cons_self _ _)) hinv)
  · intro σ s a p? hlt
    simp only [executeBuy]
    rw [if_pos hlt]
  · intro σ s q p h0 hlt
    have hcur : ¬ hasCur σ.portfolio (baseCurrency cfg s) = false := by
      intro hc
      rw [hasCur_false_balOf _ _ hc] at h0
      exact lt_irrefl 0 h0
    simp only [executeSell, resolvePrice]
    rw [if_neg (not_or.mpr ⟨hcur, not_le.mpr h0⟩), if_pos hlt]
  · intro σ s a p hbq h0 hlt
    have hcur : ¬ hasCur σ.portfolio (baseCurrency cfg s) = false := by
      intro hc
      rw [hasCur_false_balOf _ _ hc] at h0
      exact lt_irrefl 0 h0
    simp only [executeSell, resolvePrice]
    rw [if_neg (not_or.mpr ⟨hcur, not_le.mpr h0⟩), if_pos hlt]
    constructor
    · exact sellSettle_fst cfg oracle s (baseCurrency cfg s)
        (balOf σ.portfolio (baseCurrency cfg s)).available p σ
    · rw [sellSettle_portfolio, balOf_update, if_neg hbq, balOf_update, if_pos rfl]
      show (balOf σ.portfolio (baseCurrency cfg s)).available
        + -(balOf σ.portfolio (baseCurrency cfg s)).available = 0
      ring

/-- Claim C1, witness: the amended theorem applied to the default scenario
(10,000 USDT capital, oracle that resolves no price) and a single
well-formed buy of 3 USDT at price 5. -/
theorem c1_witness :
    0 ≤ (balOf (runOps cfg0 orc0 [SimOp.buy "BTCUSDT" 3 (some 5)]
      (initState cfg0)).portfolio "BTC").available :=
  (c1_amended cfg0 orc0 (fun s x h => nomatch h) (by norm_num [cfg0])).1
    [SimOp.buy "BTCUSDT" 3 (some 5)]
    (by with_unfolding_all decide) "BTC"
